import Mathlib

/-!
# Verification of the `nfo` log-flow engine (`src/nfo/log_flow.py`)

Shallow embedding of the log-flow core: entry normalization, JSONL
ingestion, trace grouping, flow-graph construction and LLM compression.

Modelling conventions:
* Python dynamic values reaching the normalizer are modelled by `PyVal`
  (`None`, numbers, strings, string-keyed dicts).  Python numbers
  (int/float) are modelled by exact rationals `Rat`; `round(x, 3)` and
  `f"{x:.2f}"` are modelled by half-even rounding on rationals.
* The three external parsers the core calls — `datetime.fromisoformat`,
  `float(str)` and `json.loads` — and the filesystem are parameters of the
  model (`PyEnv`): the code only branches on their success or failure,
  which is what the claims are about.  Every universally quantified
  theorem below holds for every `PyEnv`.
* Python `dict` is modelled as an insertion-ordered association list.
* Python's stable `list.sort` is modelled by `List.insertionSort`, which
  is also stable for the non-strict key orders used here.
-/

namespace Nfo

/-- A Python value as seen by `log_flow.py`: `None`, a number, a string,
or a string-keyed mapping. -/
inductive PyVal where
  | vNone : PyVal
  | vNum (q : Rat) : PyVal
  | vStr (s : String) : PyVal
  | vDict (d : List (String × PyVal)) : PyVal

/-- A Python string-keyed dict (insertion ordered). -/
abbrev PyDict := List (String × PyVal)

/-- Python truthiness (`bool(v)`) for the supported values. -/
def PyVal.truthy : PyVal → Bool
  | .vNone => false
  | .vNum q => q != 0
  | .vStr s => s ≠ ""
  | .vDict d => !d.isEmpty

/-- Rendering of a Python number by `str` (digits abstracted; the code
never branches on this string beyond emptiness, and it is never empty). -/
def floatRepr (q : Rat) : String :=
  if q.den = 1 then toString q.num ++ ".0" else toString q.num ++ "/" ++ toString q.den

/-- Python `str(v)` for the supported values. -/
def pyStr : PyVal → String
  | .vNone => "None"
  | .vNum q => floatRepr q
  | .vStr s => s
  | .vDict _ => "\x7b...\x7d"

/-- Python `a or b` (returns `a` when truthy, else `b`). -/
def pyOr (a b : PyVal) : PyVal := if a.truthy then a else b

/-- First-match lookup in an association list (Python `d[k]` / `d.get(k)`). -/
def dlookup {κ α : Type} [DecidableEq κ] : List (κ × α) → κ → Option α
  | [], _ => none
  | (k, v) :: rest, k' => if k' = k then some v else dlookup rest k'

/-- Python `d.get(k)` (missing key yields `None`). -/
def rawGet (d : PyDict) (k : String) : PyVal := (dlookup d k).getD .vNone

/-- Python whitespace for `str.strip()` (ASCII part). -/
def isPySpace (c : Char) : Bool :=
  c = ' ' || c = '\t' || c = '\n' || c = '\r' || c = '\x0b' || c = '\x0c'

/-- Python `str.strip()`. -/
def pyStrip (s : String) : String :=
  ⟨((s.data.dropWhile isPySpace).reverse.dropWhile isPySpace).reverse⟩

/-- Python `str.upper()` on a character (ASCII part). -/
def pyUpperChar (c : Char) : Char :=
  if 97 ≤ c.toNat ∧ c.toNat ≤ 122 then Char.ofNat (c.toNat - 32) else c

/-- Python `str.upper()`. -/
def pyUpper (s : String) : String := ⟨s.data.map pyUpperChar⟩

/-- Python `str.splitlines()` (newline-only model). -/
def pySplitlines (s : String) : List String :=
  if s = "" then []
  else if s.endsWith "\n" then (s.splitOn "\n").dropLast else s.splitOn "\n"

/-- The external effects `log_flow.py` relies on, as parameters of the
model: ISO-8601 timestamp parsing (`datetime.fromisoformat(·).timestamp()`,
`none` = `ValueError`), `float` applied to a string (`none` = `ValueError`),
`json.loads` (`none` = `JSONDecodeError`), and the filesystem (path ↦ file
content when a file exists there). -/
structure PyEnv where
  fromiso : String → Option Rat
  strFloat : String → Option Rat
  jsonLoads : String → Option PyVal
  fs : String → Option String

structure LogFlowParser where
  missing_trace_id : String := "no-trace"

def defaultParser : LogFlowParser := {}

/-- Python `float(v)` (`none` models `TypeError`/`ValueError`). -/
def pyFloat (env : PyEnv) : PyVal → Option Rat
  | .vNum q => some q
  | .vStr s => env.strFloat s
  | .vNone => none
  | .vDict _ => none

/-- `_safe_float` (log_flow.py:27): best-effort conversion to float. -/
def safe_float (env : PyEnv) (value : PyVal) : Rat :=
  match value with
  | .vNone => 0
  | v => (pyFloat env v).getD 0

/-- `_timestamp_sort_key` (log_flow.py:37): parse an ISO timestamp into a
sortable unix timestamp, `0.0` on the empty string or a parse failure. -/
def timestamp_sort_key (env : PyEnv) (timestamp : String) : Rat :=
  if timestamp = "" then 0
  else (env.fromiso (timestamp.replace "Z" "+00:00")).getD 0

/-- Modelled from the spec: `nfo.models.LogEntry` (the module
`nfo/models.py` is not part of the given sources).  Per spec §3/§6 it is a
typed record exposing the canonical field set `timestamp, level,
function_name, module, trace_id, duration_ms, exception, exception_type,
extra`, with `as_dict` yielding the canonically named mapping. -/
structure LogEntry where
  timestamp : PyVal
  level : PyVal
  function_name : PyVal
  module : PyVal
  trace_id : PyVal
  duration_ms : PyVal
  exception : PyVal
  exception_type : PyVal
  extra : PyDict

/-- Modelled from the spec: `LogEntry.as_dict` returns the record as a
mapping under the canonical field names. -/
def LogEntry.as_dict (le : LogEntry) : PyDict :=
  [("timestamp", le.timestamp), ("level", le.level),
   ("function_name", le.function_name), ("module", le.module),
   ("trace_id", le.trace_id), ("duration_ms", le.duration_ms),
   ("exception", le.exception), ("exception_type", le.exception_type),
   ("extra", .vDict le.extra)]

/-- Python dict assignment `d[k] = v` (update in place, else append). -/
def dset {κ α : Type} [DecidableEq κ] : List (κ × α) → κ → α → List (κ × α)
  | [], k, v => [(k, v)]
  | (k', v') :: rest, k, v =>
    if k = k' then (k', v) :: rest else (k', v') :: dset rest k v

/-- `Union[LogEntry, Mapping[str, Any]]`: the accepted entry shapes. -/
inductive EntryLike where
  | record (le : LogEntry) : EntryLike
  | map (d : PyDict) : EntryLike

/-- An arbitrary value passed to `normalize_entry`: an accepted shape, or
anything else (carrying its type name for the `TypeError` message). -/
inductive EntryAny where
  | entry (x : EntryLike) : EntryAny
  | other (typeName : String) : EntryAny

/-- The normalized single event schema (`NormalizedEvent`). -/
structure Event where
  timestamp : String
  sort_key : Rat
  trace_id : String
  function_name : String
  module : String
  node : String
  level : String
  duration_ms : Rat
  exception : String
  exception_type : String
  extra : PyDict

/-- The `raw` dict of `normalize_entry` (log_flow.py:55-62): `as_dict`
plus an `extra` overwrite for a record, the mapping itself otherwise. -/
def rawOf : EntryLike → PyDict
  | .record le =>
    if le.extra.isEmpty then le.as_dict else dset le.as_dict "extra" (.vDict le.extra)
  | .map d => d

/-- `LogFlowParser.normalize_entry` (log_flow.py:53-99), body after the
`raw` dispatch: normalize a raw dict into the single event schema. -/
def normalizeRaw (env : PyEnv) (p : LogFlowParser) (raw : PyDict) : Event :=
  let extra : PyDict :=
    match (dlookup raw "extra").getD (.vDict []) with
    | .vDict d => d
    | _ => []
  let function_name := pyStr (pyOr (rawGet raw "function_name") (pyOr (rawGet raw "fn") (.vStr "?")))
  let module := pyStr (pyOr (rawGet raw "module") (pyOr (rawGet raw "mod") (.vStr "")))
  let timestamp := pyStr (pyOr (rawGet raw "timestamp") (pyOr (rawGet raw "ts") (.vStr "")))
  let level := pyUpper (pyStr (pyOr (rawGet raw "level") (pyOr (rawGet raw "lvl") (.vStr "INFO"))))
  let trace_id0 :=
    pyOr (rawGet raw "trace_id") (pyOr (rawGet raw "tid")
      (pyOr (rawGet extra "trace_id") (pyOr (rawGet extra "tid") (.vStr p.missing_trace_id))))
  let trace_id :=
    if pyStrip (pyStr trace_id0) ≠ "" then pyStrip (pyStr trace_id0) else p.missing_trace_id
  let exception := pyStr (pyOr (rawGet raw "exception") (pyOr (rawGet raw "err") (.vStr "")))
  let exception_type := pyStr (pyOr (rawGet raw "exception_type") (pyOr (rawGet raw "et") (.vStr "")))
  let duration_ms := safe_float env ((dlookup raw "duration_ms").getD ((dlookup raw "ms").getD (.vNum 0)))
  let node := if module ≠ "" then module ++ "." ++ function_name else function_name
  { timestamp := timestamp, sort_key := timestamp_sort_key env timestamp,
    trace_id := trace_id, function_name := function_name, module := module,
    node := node, level := level, duration_ms := duration_ms,
    exception := exception, exception_type := exception_type, extra := extra }

/-- `normalize_entry` on an accepted shape (never raises). -/
def normalize_entry (env : PyEnv) (p : LogFlowParser) (x : EntryLike) : Event :=
  normalizeRaw env p (rawOf x)

/-- `normalize_entry` on an arbitrary value: `TypeError` for anything that
is neither a `LogEntry` nor a mapping (log_flow.py:61-62). -/
def normalizeAny (env : PyEnv) (p : LogFlowParser) : EntryAny → Except String Event
  | .entry x => .ok (normalize_entry env p x)
  | .other typeName => .error ("Unsupported entry type: " ++ typeName)

/-- The normalized event seen as the dict it is at the Python level
(relevant when an already-normalized event is fed back in). -/
def eventToDict (e : Event) : PyDict :=
  [("timestamp", .vStr e.timestamp), ("sort_key", .vNum e.sort_key),
   ("trace_id", .vStr e.trace_id), ("function_name", .vStr e.function_name),
   ("module", .vStr e.module), ("node", .vStr e.node),
   ("level", .vStr e.level), ("duration_ms", .vNum e.duration_ms),
   ("exception", .vStr e.exception), ("exception_type", .vStr e.exception_type),
   ("extra", .vDict e.extra)]

/-- `Union[str, Path, Iterable[str]]`: the ingestion source shapes. -/
inductive SrcInput where
  | path (p : String) : SrcInput
  | str (s : String) : SrcInput
  | lines (ls : List String) : SrcInput

/-- `LogFlowParser._read_lines` (log_flow.py:439-451). A `Path` source is
read from the filesystem (a missing file, which would raise, is read as
empty here; no claim concerns that case). -/
def read_lines (env : PyEnv) : SrcInput → List String
  | .path p => pySplitlines ((env.fs p).getD "")
  | .str s =>
    if ¬ s.contains '\n' ∧ (env.fs s).isSome then pySplitlines ((env.fs s).getD "")
    else pySplitlines s
  | .lines ls => ls

/-- The strict-mode ingestion failures of `parse_jsonl`, with the 1-based
line number each message reports (log_flow.py:125,130). -/
inductive JsonlError where
  | invalidJson (line_no : Nat)
  | notObject (line_no : Nat)
deriving Repr, DecidableEq

/-- The message text of a strict-mode failure (`ValueError` argument). -/
def JsonlError.message : JsonlError → String
  | .invalidJson n => "Invalid JSON on line " ++ toString n ++ ": <decode error>"
  | .notObject n => "JSON line " ++ toString n ++ " is not an object"

/-- The loop of `parse_jsonl` (log_flow.py:116-133) over the remaining
lines, carrying the 1-based number of the next line. -/
def parseLoop (env : PyEnv) (p : LogFlowParser) (strict : Bool) :
    Nat → List String → Except JsonlError (List Event)
  | _, [] => .ok []
  | line_no, line :: rest =>
    let stripped := pyStrip line
    if stripped = "" then parseLoop env p strict (line_no + 1) rest
    else
      match env.jsonLoads stripped with
      | none =>
        if strict then .error (.invalidJson line_no)
        else parseLoop env p strict (line_no + 1) rest
      | some (.vDict d) =>
        (parseLoop env p strict (line_no + 1) rest).map
          (fun events => normalizeRaw env p d :: events)
      | some _ =>
        if strict then .error (.notObject line_no)
        else parseLoop env p strict (line_no + 1) rest

/-- `LogFlowParser.parse_jsonl` (log_flow.py:101-135). -/
def parse_jsonl (env : PyEnv) (p : LogFlowParser) (strict : Bool)
    (source : SrcInput) : Except JsonlError (List Event) :=
  parseLoop env p strict 1 (read_lines env source)

/-- The Python sort key of events within a trace (log_flow.py:177):
`(e["sort_key"], e["function_name"], e["module"])` under tuple order. -/
def eventKey (e : Event) : Rat ×ₗ (String ×ₗ String) :=
  toLex (e.sort_key, toLex (e.function_name, e.module))

/-- Non-strict event order used by the stable within-trace sort. -/
def eventKeyLe (a b : Event) : Prop := eventKey a ≤ eventKey b

instance : DecidableRel eventKeyLe := fun a b =>
  inferInstanceAs (Decidable (eventKey a ≤ eventKey b))

instance : IsTotal Event eventKeyLe := ⟨fun a b => le_total (eventKey a) (eventKey b)⟩

instance : IsTrans Event eventKeyLe :=
  ⟨fun _ _ _ hab hbc => le_trans (α := Rat ×ₗ (String ×ₗ String)) hab hbc⟩

/-- The Python bucket presentation key (log_flow.py:180):
`(-len(bucket), trace_id)`. -/
def bucketKey (kv : String × List Event) : Int ×ₗ String :=
  toLex (-(kv.2.length : Int), kv.1)

def bucketLe (a b : String × List Event) : Prop := bucketKey a ≤ bucketKey b

instance : DecidableRel bucketLe := fun a b =>
  inferInstanceAs (Decidable (bucketKey a ≤ bucketKey b))

instance : IsTotal (String × List Event) bucketLe :=
  ⟨fun a b => le_total (bucketKey a) (bucketKey b)⟩

instance : IsTrans (String × List Event) bucketLe :=
  ⟨fun _ _ _ hab hbc => le_trans (α := Int ×ₗ String) hab hbc⟩

/-- One step of `grouped[event["trace_id"]].append(event)` on the
insertion-ordered `defaultdict(list)`. -/
def dictPush (m : List (String × List Event)) (k : String) (e : Event) :
    List (String × List Event) :=
  match m with
  | [] => [(k, [e])]
  | (k', es) :: rest =>
    if k = k' then (k', es ++ [e]) :: rest else (k', es) :: dictPush rest k e

/-- The grouping loop of `group_by_trace_id` (log_flow.py:171-173). -/
def groupCore (events : List Event) : List (String × List Event) :=
  events.foldl (fun m e => dictPush m e.trace_id e) []

/-- `LogFlowParser.group_by_trace_id` (log_flow.py:164-180): group
normalized events by `trace_id`, sort each bucket chronologically, and
present buckets by `(-size, trace_id)`. -/
def group_by_trace_id (env : PyEnv) (p : LogFlowParser)
    (entries : List EntryLike) : List (String × List Event) :=
  let grouped := groupCore (entries.map (normalize_entry env p))
  List.insertionSort bucketLe
    (grouped.map (fun kv => (kv.1, List.insertionSort eventKeyLe kv.2)))

/-- The two accepted shapes of `build_flow_graph` input: a raw entry
sequence, or an already-grouped mapping (string keys). -/
inductive GraphInput where
  | entries (es : List EntryLike) : GraphInput
  | grouped (m : List (String × List EntryLike)) : GraphInput

/-- The grouped form `build_flow_graph` works on (log_flow.py:190-198):
a mapping is re-normalized and re-sorted per bucket (key order kept), a
raw sequence goes through `group_by_trace_id`. -/
def toGrouped (env : PyEnv) (p : LogFlowParser) : GraphInput → List (String × List Event)
  | .entries es => group_by_trace_id env p es
  | .grouped m =>
    m.map (fun kv => (kv.1, List.insertionSort eventKeyLe (kv.2.map (normalize_entry env p))))

/-- Per-node mutable aggregate (log_flow.py:219-235). -/
structure NodeAgg where
  id : String
  module : String
  function_name : String
  calls : Nat
  errors : Nat
  total_duration_ms : Rat
  trace_ids : List String

/-- Per-edge mutable aggregate (log_flow.py:239-252). -/
structure EdgeAgg where
  source : String
  target : String
  count : Nat
  error_count : Nat
  trace_ids : List String

/-- Python `set.add` on a set modelled as a dedup-keeping list. -/
def setInsert (l : List String) (x : String) : List String :=
  if x ∈ l then l else l ++ [x]

def nodeInit (e : Event) : NodeAgg :=
  { id := e.node, module := e.module, function_name := e.function_name,
    calls := 0, errors := 0, total_duration_ms := 0, trace_ids := [] }

def nodeUpd (tid : String) (e : Event) (n : NodeAgg) : NodeAgg :=
  { n with calls := n.calls + 1,
           errors := if e.exception ≠ "" then n.errors + 1 else n.errors,
           total_duration_ms := n.total_duration_ms + e.duration_ms,
           trace_ids := setInsert n.trace_ids tid }

def edgeInit (key : String × String) : EdgeAgg :=
  { source := key.1, target := key.2, count := 0, error_count := 0, trace_ids := [] }

def edgeUpd (tid : String) (e : Event) (a : EdgeAgg) : EdgeAgg :=
  { a with count := a.count + 1,
           error_count := if e.exception ≠ "" then a.error_count + 1 else a.error_count,
           trace_ids := setInsert a.trace_ids tid }

/-- `dict.setdefault(k, init)` followed by an in-place update. -/
def dictUpdate {κ α : Type} [DecidableEq κ] (m : List (κ × α)) (k : κ)
    (dflt : α) (f : α → α) : List (κ × α) :=
  match m with
  | [] => [(k, f dflt)]
  | (k', v) :: rest =>
    if k = k' then (k', f v) :: rest else (k', v) :: dictUpdate rest k dflt f

/-- The mutable state of the `build_flow_graph` aggregation loop. -/
structure BuildState where
  nodes : List (String × NodeAgg)
  edges : List ((String × String) × EdgeAgg)
  total_events : Nat
  total_errors : Nat

def initState : BuildState := ⟨[], [], 0, 0⟩

/-- The inner event walk of `build_flow_graph` (log_flow.py:211-254),
carrying the `prev_node` cursor. -/
def processEvents (tid : String) : BuildState → Option String → List Event → BuildState
  | st, _, [] => st
  | st, prev, e :: rest =>
    let he := e.exception ≠ ""
    let st := { st with total_events := st.total_events + 1,
                        total_errors := if he then st.total_errors + 1 else st.total_errors }
    let st := { st with nodes := dictUpdate st.nodes e.node (nodeInit e) (nodeUpd tid e) }
    let st :=
      match prev with
      | none => st
      | some p =>
        { st with edges := dictUpdate st.edges (p, e.node) (edgeInit (p, e.node)) (edgeUpd tid e) }
    processEvents tid st (some e.node) rest

/-- Round half to even (Python `round` ties behaviour), on rationals. -/
def halfEvenRound (x : Rat) : Int :=
  let f := x.floor
  let r := x - (f : Rat)
  if r < 1/2 then f
  else if 1/2 < r then f + 1
  else if f % 2 = 0 then f else f + 1

/-- Python `round(x, 3)` modelled on exact rationals. -/
def pyRound3 (q : Rat) : Rat := (halfEvenRound (q * 1000) : Rat) / 1000

/-- A serialized node row (log_flow.py:267-281). -/
structure NodeRow where
  id : String
  module : String
  function_name : String
  calls : Nat
  errors : Nat
  total_duration_ms : Rat
  avg_duration_ms : Rat
  trace_ids : List String
deriving DecidableEq

/-- A serialized edge row (log_flow.py:283-293). -/
structure EdgeRow where
  source : String
  target : String
  count : Nat
  error_count : Nat
  trace_ids : List String
deriving DecidableEq

/-- A per-trace summary (log_flow.py:256-265). -/
structure TraceRow where
  trace_id : String
  event_count : Nat
  error_count : Nat
  start_timestamp : String
  end_timestamp : String
  events : List Event

/-- The `stats` aggregate (log_flow.py:302-308). -/
structure Stats where
  trace_count : Nat
  event_count : Nat
  node_count : Nat
  edge_count : Nat
  error_count : Nat

structure FlowGraph where
  stats : Stats
  nodes : List NodeRow
  edges : List EdgeRow
  traces : List TraceRow

/-- Ascending string order for `sorted(trace_ids)`. -/
def strLe (a b : String) : Prop := a ≤ b

instance : DecidableRel strLe := fun a b => inferInstanceAs (Decidable (a ≤ b))

instance : IsTotal String strLe := ⟨fun a b => le_total a b⟩

instance : IsTrans String strLe := ⟨fun _ _ _ hab hbc => le_trans hab hbc⟩

def mkNodeRow (n : NodeAgg) : NodeRow :=
  let calls := if n.calls = 0 then 1 else n.calls
  { id := n.id, module := n.module, function_name := n.function_name,
    calls := n.calls, errors := n.errors,
    total_duration_ms := pyRound3 n.total_duration_ms,
    avg_duration_ms := pyRound3 (n.total_duration_ms / (calls : Rat)),
    trace_ids := List.insertionSort strLe n.trace_ids }

def mkEdgeRow (a : EdgeAgg) : EdgeRow :=
  { source := a.source, target := a.target, count := a.count,
    error_count := a.error_count, trace_ids := List.insertionSort strLe a.trace_ids }

/-- `trace_errors` accumulation (log_flow.py:209,216). -/
def traceErrors (events : List Event) : Nat :=
  events.foldl (fun n e => if e.exception ≠ "" then n + 1 else n) 0

def mkTraceRow (tid : String) (events : List Event) : TraceRow :=
  { trace_id := tid, event_count := events.length,
    error_count := traceErrors events,
    start_timestamp := match events with | [] => "" | e :: _ => e.timestamp,
    end_timestamp := (events.getLast?.map (·.timestamp)).getD "",
    events := events }

/-- Node ranking `(-calls, -errors, id)` (log_flow.py:295). -/
def nodeRankKey (n : NodeRow) : Int ×ₗ (Int ×ₗ String) :=
  toLex (-(n.calls : Int), toLex (-(n.errors : Int), n.id))

def nodeRankLe (a b : NodeRow) : Prop := nodeRankKey a ≤ nodeRankKey b

instance : DecidableRel nodeRankLe := fun a b =>
  inferInstanceAs (Decidable (nodeRankKey a ≤ nodeRankKey b))

instance : IsTotal NodeRow nodeRankLe := ⟨fun a b => le_total (nodeRankKey a) (nodeRankKey b)⟩

instance : IsTrans NodeRow nodeRankLe :=
  ⟨fun _ _ _ hab hbc => le_trans (α := Int ×ₗ (Int ×ₗ String)) hab hbc⟩

/-- Edge ranking `(-count, -error_count, source, target)` (log_flow.py:296-298). -/
def edgeRankKey (e : EdgeRow) : Int ×ₗ (Int ×ₗ (String ×ₗ String)) :=
  toLex (-(e.count : Int), toLex (-(e.error_count : Int), toLex (e.source, e.target)))

def edgeRankLe (a b : EdgeRow) : Prop := edgeRankKey a ≤ edgeRankKey b

instance : DecidableRel edgeRankLe := fun a b =>
  inferInstanceAs (Decidable (edgeRankKey a ≤ edgeRankKey b))

instance : IsTotal EdgeRow edgeRankLe := ⟨fun a b => le_total (edgeRankKey a) (edgeRankKey b)⟩

instance : IsTrans EdgeRow edgeRankLe :=
  ⟨fun _ _ _ hab hbc => le_trans (α := Int ×ₗ (Int ×ₗ (String ×ₗ String))) hab hbc⟩

/-- Trace ranking `(-event_count, trace_id)` (log_flow.py:299). -/
def traceRankKey (t : TraceRow) : Int ×ₗ String :=
  toLex (-(t.event_count : Int), t.trace_id)

def traceRankLe (a b : TraceRow) : Prop := traceRankKey a ≤ traceRankKey b

instance : DecidableRel traceRankLe := fun a b =>
  inferInstanceAs (Decidable (traceRankKey a ≤ traceRankKey b))

instance : IsTotal TraceRow traceRankLe := ⟨fun a b => le_total (traceRankKey a) (traceRankKey b)⟩

instance : IsTrans TraceRow traceRankLe :=
  ⟨fun _ _ _ hab hbc => le_trans (α := Int ×ₗ String) hab hbc⟩

/-- `build_flow_graph` on the grouped form (log_flow.py:200-312). -/
def buildFromGrouped (grouped : List (String × List Event)) : FlowGraph :=
  let st := grouped.foldl (fun st kv => processEvents kv.1 st none kv.2) initState
  let node_rows := List.insertionSort nodeRankLe (st.nodes.map (fun kv => mkNodeRow kv.2))
  let edge_rows := List.insertionSort edgeRankLe (st.edges.map (fun kv => mkEdgeRow kv.2))
  let traces := List.insertionSort traceRankLe (grouped.map (fun kv => mkTraceRow kv.1 kv.2))
  { stats := { trace_count := grouped.length, event_count := st.total_events,
               node_count := node_rows.length, edge_count := edge_rows.length,
               error_count := st.total_errors },
    nodes := node_rows, edges := edge_rows, traces := traces }

/-- `LogFlowParser.build_flow_graph` (log_flow.py:182-312). -/
def build_flow_graph (env : PyEnv) (p : LogFlowParser) (input : GraphInput) : FlowGraph :=
  buildFromGrouped (toGrouped env p input)

/-- Python `f"{x:.2f}"` modelled on exact rationals (half-even at 2
decimal places; sign placement abstracted for negatives). -/
def fmt2f (q : Rat) : String :=
  let n := halfEvenRound (q * 100)
  let sign := if n < 0 then "-" else ""
  let m := n.natAbs
  sign ++ toString (m / 100) ++ "." ++ (if m % 100 < 10 then "0" else "") ++ toString (m % 100)

/-- One `## Top Nodes` line (log_flow.py:376-381). -/
def nodeLine (n : NodeRow) : String :=
  "- " ++ n.id ++ ": calls=" ++ toString n.calls ++ ", errors=" ++ toString n.errors
    ++ ", avg_ms=" ++ floatRepr n.avg_duration_ms

/-- One `## Top Edges` line (log_flow.py:386-392). -/
def edgeLine (e : EdgeRow) : String :=
  "- " ++ e.source ++ " -> " ++ e.target ++ ": count=" ++ toString e.count
    ++ ", error_count=" ++ toString e.error_count

/-- One trace timeline event line (log_flow.py:405-415). -/
def eventLine (e : Event) : String :=
  let status := if e.exception ≠ "" then "ERR" else "OK"
  let ts := if e.timestamp ≠ "" then e.timestamp else "unknown-ts"
  let line := "- " ++ ts ++ " | " ++ status ++ " | " ++ e.node ++ " | " ++ fmt2f e.duration_ms ++ "ms"
  if e.exception_type ≠ "" then line ++ " | " ++ e.exception_type else line

/-- One trace timeline block (log_flow.py:397-420): header, up to
`max_events_per_trace` event lines, and the per-trace elision line. -/
def traceBlock (max_events_per_trace : Nat) (t : TraceRow) : List String :=
  ("### trace_id=" ++ t.trace_id ++ " (events=" ++ toString t.event_count
      ++ ", errors=" ++ toString t.error_count ++ ")")
    :: (t.events.take max_events_per_trace).map eventLine
    ++ (if max_events_per_trace < t.event_count then
          ["- ... " ++ toString (t.event_count - max_events_per_trace) ++ " more events in this trace"]
        else [])

/-- `LogFlowParser.compress_for_llm` (log_flow.py:334-425) on a flow
graph, as the list of lines later joined by newlines.  (The variant that
receives raw entries first runs `build_flow_graph`, log_flow.py:348-356.) -/
def compressLines (g : FlowGraph)
    (max_nodes max_edges max_traces max_events_per_trace : Nat) : List String :=
  ["# nfo Log Flow Compression", "## Summary",
   "- traces: " ++ toString g.stats.trace_count,
   "- events: " ++ toString g.stats.event_count,
   "- nodes: " ++ toString g.stats.node_count,
   "- edges: " ++ toString g.stats.edge_count,
   "- errors: " ++ toString g.stats.error_count,
   "", "## Top Nodes"]
  ++ (g.nodes.take max_nodes).map nodeLine
  ++ (if max_nodes < g.nodes.length then
        ["- ... " ++ toString (g.nodes.length - max_nodes) ++ " more nodes"]
      else [])
  ++ ["", "## Top Edges"]
  ++ (g.edges.take max_edges).map edgeLine
  ++ (if max_edges < g.edges.length then
        ["- ... " ++ toString (g.edges.length - max_edges) ++ " more edges"]
      else [])
  ++ ["", "## Trace Timelines"]
  ++ ((g.traces.take max_traces).map (traceBlock max_events_per_trace)).flatten
  ++ (if max_traces < g.traces.length then
        ["- ... " ++ toString (g.traces.length - max_traces) ++ " more traces"]
      else [])

/-- `compress_for_llm`: the joined text. -/
def compress_for_llm (g : FlowGraph)
    (max_nodes max_edges max_traces max_events_per_trace : Nat) : String :=
  String.intercalate "\n" (compressLines g max_nodes max_edges max_traces max_events_per_trace)

/-! ## Basic lemmas on the Python string primitives -/

theorem toNat_ofNat_valid (n : Nat) (h : Nat.isValidChar n) : (Char.ofNat n).toNat = n := by
  simp [Char.ofNat, h, Char.ofNatAux, Char.toNat, UInt32.toNat, BitVec.toNat_ofNatLt]

theorem pyUpperChar_idem (c : Char) : pyUpperChar (pyUpperChar c) = pyUpperChar c := by
  unfold pyUpperChar
  by_cases h : 97 ≤ c.toNat ∧ c.toNat ≤ 122
  · rw [if_pos h]
    have hv : Nat.isValidChar (c.toNat - 32) := by
      left
      omega
    have ht : (Char.ofNat (c.toNat - 32)).toNat = c.toNat - 32 := toNat_ofNat_valid _ hv
    rw [if_neg]
    rw [ht]
    omega
  · rw [if_neg h, if_neg h]

theorem pyUpper_idem (s : String) : pyUpper (pyUpper s) = pyUpper s := by
  unfold pyUpper
  simp [List.map_map, Function.comp_def, pyUpperChar_idem]

theorem data_ne_nil_iff (s : String) : s ≠ "" ↔ s.data ≠ [] := by
  constructor
  · intro h hd
    exact h (by cases s with | mk l => cases hd; rfl)
  · intro h he
    apply h
    rw [he]

theorem pyUpper_ne_empty {s : String} (h : s ≠ "") : pyUpper s ≠ "" := by
  rw [data_ne_nil_iff] at h ⊢
  unfold pyUpper
  simpa using h

theorem dropWhile_idem (p : α → Bool) (l : List α) :
    (l.dropWhile p).dropWhile p = l.dropWhile p := by
  induction l with
  | nil => rfl
  | cons a l ih =>
    by_cases h : p a
    · simp [List.dropWhile_cons, h, ih]
    · simp [List.dropWhile_cons, h]

theorem dropWhile_head_false (p : α → Bool) {l : List α} {x : α} {xs : List α}
    (h : l.dropWhile p = x :: xs) : p x = false := by
  induction l with
  | nil => simp at h
  | cons a l ih =>
    by_cases hp : p a
    · rw [List.dropWhile_cons, if_pos hp] at h
      exact ih h
    · rw [List.dropWhile_cons, if_neg hp] at h
      cases h
      simpa using hp

theorem dropWhile_eq_self_of_head (p : α → Bool) {l : List α}
    (h : ∀ x xs, l = x :: xs → p x = false) : l.dropWhile p = l := by
  cases l with
  | nil => rfl
  | cons a l => rw [List.dropWhile_cons, if_neg (by simp [h a l rfl])]

/-- The list-level strip underlying `pyStrip`. -/
def stripL (p : α → Bool) (l : List α) : List α :=
  ((l.dropWhile p).reverse.dropWhile p).reverse

theorem stripL_idem (p : α → Bool) (l : List α) : stripL p (stripL p l) = stripL p l := by
  set t := l.dropWhile p with ht
  set u := (t.reverse.dropWhile p).reverse with hu
  have hsuffix : (t.reverse.dropWhile p).IsSuffix t.reverse := List.dropWhile_suffix p
  have hpre : u.IsPrefix t := by
    have := hsuffix.reverse
    simpa [hu] using this
  have hdrop_u : u.dropWhile p = u := by
    apply dropWhile_eq_self_of_head
    intro x xs hx
    obtain ⟨r, hr⟩ := hpre
    rw [hx] at hr
    exact dropWhile_head_false p (l := l) hr.symm
  show ((u.dropWhile p).reverse.dropWhile p).reverse = u
  rw [hdrop_u, hu, List.reverse_reverse, dropWhile_idem]

theorem pyStrip_data (s : String) : (pyStrip s).data = stripL isPySpace s.data := rfl

theorem pyStrip_idem (s : String) : pyStrip (pyStrip s) = pyStrip s := by
  apply String.ext
  rw [pyStrip_data, pyStrip_data, stripL_idem]

theorem string_append_ne_of_right {a b : String} (h : b ≠ "") : a ++ b ≠ "" := by
  rw [data_ne_nil_iff] at h ⊢
  intro hc
  rw [String.data_append] at hc
  exact h (List.append_eq_nil.mp hc).2

theorem string_append_ne_of_left {a b : String} (h : a ≠ "") : a ++ b ≠ "" := by
  rw [data_ne_nil_iff] at h ⊢
  intro hc
  rw [String.data_append] at hc
  exact h (List.append_eq_nil.mp hc).1

theorem floatRepr_ne_empty (q : Rat) : floatRepr q ≠ "" := by
  unfold floatRepr
  split
  · exact string_append_ne_of_right (by decide)
  · exact string_append_ne_of_left (string_append_ne_of_right (by decide))

theorem pyStr_ne_empty_of_truthy {v : PyVal} (h : v.truthy = true) : pyStr v ≠ "" := by
  cases v with
  | vNone => simp [PyVal.truthy] at h
  | vNum q => exact floatRepr_ne_empty q
  | vStr s => simpa [PyVal.truthy] using h
  | vDict d => simp [pyStr]

theorem pyStr_pyOr_ne {a b : PyVal} (h : pyStr b ≠ "") : pyStr (pyOr a b) ≠ "" := by
  unfold pyOr
  split
  · next ht => exact pyStr_ne_empty_of_truthy ht
  · exact h

theorem pyOr_of_truthy {a b : PyVal} (h : a.truthy = true) : pyOr a b = a := if_pos h

theorem pyOr_vStr_of_ne {s : String} (h : s ≠ "") (b : PyVal) : pyOr (.vStr s) b = .vStr s :=
  pyOr_of_truthy (by simpa [PyVal.truthy] using h)

theorem pyOr_vStr_empty (b : PyVal) : pyOr (.vStr "") b = b := if_neg (by simp [PyVal.truthy])

theorem pyOr_vNone (b : PyVal) : pyOr .vNone b = b := if_neg (by simp [PyVal.truthy])

/-! ## Facts about the fields of a normalized event

Every event produced by `normalize_entry` has a non-empty function name,
an upper-case-stable non-empty level, and (when the configured sentinel is
itself strip-stable and non-empty) a strip-stable non-empty trace id.
These are what make re-normalizing a normalized event the identity. -/

theorem normalizeRaw_function_name_ne (env : PyEnv) (p : LogFlowParser) (raw : PyDict) :
    (normalizeRaw env p raw).function_name ≠ "" := by
  unfold normalizeRaw
  exact pyStr_pyOr_ne (pyStr_pyOr_ne (by decide))

theorem normalizeRaw_level_eq (env : PyEnv) (p : LogFlowParser) (raw : PyDict) :
    pyUpper (normalizeRaw env p raw).level = (normalizeRaw env p raw).level ∧
      (normalizeRaw env p raw).level ≠ "" := by
  unfold normalizeRaw
  refine ⟨pyUpper_idem _, ?_⟩
  exact pyUpper_ne_empty (pyStr_pyOr_ne (pyStr_pyOr_ne (by decide)))

theorem normalizeRaw_trace_id_eq (env : PyEnv) (p : LogFlowParser)
    (hp : pyStrip p.missing_trace_id = p.missing_trace_id)
    (hp2 : p.missing_trace_id ≠ "") (raw : PyDict) :
    pyStrip (normalizeRaw env p raw).trace_id = (normalizeRaw env p raw).trace_id ∧
      (normalizeRaw env p raw).trace_id ≠ "" := by
  unfold normalizeRaw
  dsimp only
  split
  · next h => exact ⟨pyStrip_idem _, h⟩
  · exact ⟨hp, hp2⟩

theorem normalizeRaw_node_eq (env : PyEnv) (p : LogFlowParser) (raw : PyDict) :
    (normalizeRaw env p raw).node =
      (if (normalizeRaw env p raw).module ≠ "" then
        (normalizeRaw env p raw).module ++ "." ++ (normalizeRaw env p raw).function_name
      else (normalizeRaw env p raw).function_name) := rfl

theorem normalizeRaw_sort_key_eq (env : PyEnv) (p : LogFlowParser) (raw : PyDict) :
    (normalizeRaw env p raw).sort_key =
      timestamp_sort_key env (normalizeRaw env p raw).timestamp := rfl

theorem pyStr_or_empty_default (s : String) :
    pyStr (pyOr (.vStr s) (pyOr .vNone (.vStr ""))) = s := by
  by_cases h : s = ""
  · subst h
    rw [pyOr_vStr_empty, pyOr_vNone]
    rfl
  · rw [pyOr_vStr_of_ne h]
    rfl

/-- Re-normalizing an already-normalized event (fed back as the dict it
is) is the identity, provided the configured sentinel is itself
strip-stable and non-empty (as the default `"no-trace"` is). -/
theorem normalizeRaw_fixpoint (env : PyEnv) (p : LogFlowParser)
    (hp : pyStrip p.missing_trace_id = p.missing_trace_id)
    (hp2 : p.missing_trace_id ≠ "") (raw : PyDict) :
    normalizeRaw env p (eventToDict (normalizeRaw env p raw)) = normalizeRaw env p raw := by
  obtain ⟨hlv, hlv2⟩ := normalizeRaw_level_eq env p raw
  obtain ⟨htr, htr2⟩ := normalizeRaw_trace_id_eq env p hp hp2 raw
  have hfn := normalizeRaw_function_name_ne env p raw
  set e := normalizeRaw env p raw with he
  have hgfn : rawGet (eventToDict e) "function_name" = .vStr e.function_name := rfl
  have hgfn2 : rawGet (eventToDict e) "fn" = .vNone := rfl
  have hgmod : rawGet (eventToDict e) "module" = .vStr e.module := rfl
  have hgmod2 : rawGet (eventToDict e) "mod" = .vNone := rfl
  have hgts : rawGet (eventToDict e) "timestamp" = .vStr e.timestamp := rfl
  have hgts2 : rawGet (eventToDict e) "ts" = .vNone := rfl
  have hglev : rawGet (eventToDict e) "level" = .vStr e.level := rfl
  have hglev2 : rawGet (eventToDict e) "lvl" = .vNone := rfl
  have hgtid : rawGet (eventToDict e) "trace_id" = .vStr e.trace_id := rfl
  have hgexc : rawGet (eventToDict e) "exception" = .vStr e.exception := rfl
  have hgexc2 : rawGet (eventToDict e) "err" = .vNone := rfl
  have hget : rawGet (eventToDict e) "exception_type" = .vStr e.exception_type := rfl
  have hget2 : rawGet (eventToDict e) "et" = .vNone := rfl
  have hgx : dlookup (eventToDict e) "extra" = some (.vDict e.extra) := rfl
  have hgd : dlookup (eventToDict e) "duration_ms" = some (.vNum e.duration_ms) := rfl
  show normalizeRaw env p (eventToDict e) = e
  unfold normalizeRaw
  rw [hgfn, hgfn2, hgmod, hgmod2, hgts, hgts2, hglev, hglev2, hgtid,
    hgexc, hgexc2, hget, hget2, hgx, hgd]
  simp only [Option.getD_some]
  rw [pyOr_vStr_of_ne hfn]
  rw [pyOr_vStr_of_ne hlv2]
  rw [pyOr_vStr_of_ne htr2]
  rw [pyStr_or_empty_default, pyStr_or_empty_default, pyStr_or_empty_default,
    pyStr_or_empty_default]
  show Event.mk e.timestamp (timestamp_sort_key env e.timestamp)
      (if pyStrip (pyStr (.vStr e.trace_id)) ≠ "" then pyStrip (pyStr (.vStr e.trace_id))
       else p.missing_trace_id)
      (pyStr (.vStr e.function_name)) e.module
      (if e.module ≠ "" then e.module ++ "." ++ pyStr (.vStr e.function_name)
       else pyStr (.vStr e.function_name))
      (pyUpper (pyStr (.vStr e.level)))
      (safe_float env (.vNum e.duration_ms)) e.exception e.exception_type e.extra = e
  show Event.mk e.timestamp (timestamp_sort_key env e.timestamp)
      (if pyStrip e.trace_id ≠ "" then pyStrip e.trace_id else p.missing_trace_id)
      e.function_name e.module
      (if e.module ≠ "" then e.module ++ "." ++ e.function_name else e.function_name)
      (pyUpper e.level) e.duration_ms e.exception e.exception_type e.extra = e
  rw [htr, if_pos htr2, hlv, ← normalizeRaw_node_eq env p raw, ← normalizeRaw_sort_key_eq env p raw]

/-! ## The grouping dictionary -/

theorem dlookup_none_iff {κ α : Type} [DecidableEq κ] (m : List (κ × α)) (k : κ) :
    dlookup m k = none ↔ k ∉ m.map Prod.fst := by
  induction m with
  | nil => simp [dlookup]
  | cons kv rest ih =>
    obtain ⟨k', v⟩ := kv
    by_cases h : k = k'
    · subst h
      simp [dlookup]
    · simp [dlookup, if_neg h, ih, h]

theorem dictPush_not_mem {m : List (String × List Event)} {k : String}
    (h : k ∉ m.map Prod.fst) (e : Event) : dictPush m k e = m ++ [(k, [e])] := by
  induction m with
  | nil => rfl
  | cons kv rest ih =>
    obtain ⟨k', b⟩ := kv
    simp only [List.map_cons, List.mem_cons] at h
    push_neg at h
    rw [dictPush, if_neg h.1]
    rw [ih h.2]
    rfl

theorem dictPush_append_found {m : List (String × List Event)} {k : String}
    (h : k ∉ m.map Prod.fst) (b : List Event) (e : Event) :
    dictPush (m ++ [(k, b)]) k e = m ++ [(k, b ++ [e])] := by
  induction m with
  | nil => simp [dictPush]
  | cons kv rest ih =>
    obtain ⟨k', b'⟩ := kv
    simp only [List.map_cons, List.mem_cons] at h
    push_neg at h
    rw [List.cons_append, dictPush, if_neg h.1, ih h.2]
    rfl

theorem dictPush_keys (m : List (String × List Event)) (k : String) (e : Event) :
    (dictPush m k e).map Prod.fst =
      if k ∈ m.map Prod.fst then m.map Prod.fst else m.map Prod.fst ++ [k] := by
  induction m with
  | nil => simp [dictPush]
  | cons kv rest ih =>
    obtain ⟨k', b⟩ := kv
    by_cases h : k = k'
    · subst h
      simp [dictPush]
    · rw [dictPush, if_neg h]
      simp only [List.map_cons, List.mem_cons, h, false_or]
      rw [ih]
      by_cases h2 : k ∈ rest.map Prod.fst
      · rw [if_pos h2, if_pos h2]
      · rw [if_neg h2, if_neg h2]
        rfl

theorem dictPush_keys_nodup {m : List (String × List Event)} (h : (m.map Prod.fst).Nodup)
    (k : String) (e : Event) : ((dictPush m k e).map Prod.fst).Nodup := by
  rw [dictPush_keys]
  by_cases hm : k ∈ m.map Prod.fst
  · rwa [if_pos hm]
  · rw [if_neg hm]
    refine h.append (List.nodup_singleton k) ?_
    intro a ha hk
    rw [List.mem_singleton] at hk
    subst hk
    exact hm ha

theorem mem_dictPush {m : List (String × List Event)} {k : String} {e : Event}
    {kb : String × List Event} (h : kb ∈ dictPush m k e) :
    kb ∈ m ∨ (∃ b₀, (kb.1, b₀) ∈ m ∧ kb.2 = b₀ ++ [e] ∧ kb.1 = k) ∨ kb = (k, [e]) := by
  induction m with
  | nil =>
    right; right
    simpa [dictPush] using h
  | cons kv rest ih =>
    obtain ⟨k', b⟩ := kv
    by_cases hk : k = k'
    · subst hk
      rw [dictPush, if_pos rfl] at h
      rcases List.mem_cons.mp h with h1 | h1
      · right; left
        exact ⟨b, by simp [h1], by simp [h1], by simp [h1]⟩
      · exact Or.inl (List.mem_cons_of_mem _ h1)
    · rw [dictPush, if_neg hk] at h
      rcases List.mem_cons.mp h with h1 | h1
      · exact Or.inl (by simp [h1])
      · rcases ih h1 with h2 | h2 | h2
        · exact Or.inl (List.mem_cons_of_mem _ h2)
        · obtain ⟨b₀, hb₁, hb₂, hb₃⟩ := h2
          exact Or.inr (Or.inl ⟨b₀, List.mem_cons_of_mem _ hb₁, hb₂, hb₃⟩)
        · exact Or.inr (Or.inr h2)

/-- The grouping fold with an explicit accumulator. -/
def groupAux (m : List (String × List Event)) (events : List Event) :
    List (String × List Event) :=
  events.foldl (fun m e => dictPush m e.trace_id e) m

theorem groupCore_eq_aux (events : List Event) : groupCore events = groupAux [] events := rfl

theorem groupAux_keys_nodup {m : List (String × List Event)}
    (h : (m.map Prod.fst).Nodup) (es : List Event) :
    ((groupAux m es).map Prod.fst).Nodup := by
  induction es generalizing m with
  | nil => exact h
  | cons e es ih => exact ih (dictPush_keys_nodup h e.trace_id e)

theorem groupAux_bucket_prop (P : Event → Prop) {m : List (String × List Event)}
    {es : List Event} (hm : ∀ kb ∈ m, ∀ ev ∈ kb.2, P ev) (hes : ∀ ev ∈ es, P ev) :
    ∀ kb ∈ groupAux m es, ∀ ev ∈ kb.2, P ev := by
  induction es generalizing m with
  | nil => exact hm
  | cons e es ih =>
    apply ih
    · intro kb hkb ev hev
      rcases mem_dictPush hkb with h1 | h1 | h1
      · exact hm kb h1 ev hev
      · obtain ⟨b₀, hb₁, hb₂, _⟩ := h1
        rw [hb₂] at hev
        rcases List.mem_append.mp hev with h2 | h2
        · exact hm _ hb₁ ev h2
        · rw [List.mem_singleton] at h2
          subst h2
          exact hes _ (List.mem_cons_self _ _)
      · subst h1
        rw [List.mem_singleton] at hev
        subst hev
        exact hes _ (List.mem_cons_self _ _)
    · exact fun ev hev => hes ev (List.mem_cons_of_mem _ hev)

theorem groupAux_key_prop {m : List (String × List Event)} {es : List Event}
    (hm : ∀ kb ∈ m, ∀ ev ∈ kb.2, ev.trace_id = kb.1) :
    ∀ kb ∈ groupAux m es, ∀ ev ∈ kb.2, ev.trace_id = kb.1 := by
  induction es generalizing m with
  | nil => exact hm
  | cons e es ih =>
    apply ih
    intro kb hkb ev hev
    rcases mem_dictPush hkb with h1 | h1 | h1
    · exact hm kb h1 ev hev
    · obtain ⟨b₀, hb₁, hb₂, hb₃⟩ := h1
      rw [hb₂] at hev
      rcases List.mem_append.mp hev with h2 | h2
      · exact hm _ hb₁ ev h2
      · rw [List.mem_singleton] at h2
        subst h2
        rw [hb₃]
    · subst h1
      rw [List.mem_singleton] at hev
      subst hev
      rfl

theorem groupAux_ne_nil {m : List (String × List Event)} {es : List Event}
    (hm : ∀ kb ∈ m, kb.2 ≠ []) : ∀ kb ∈ groupAux m es, kb.2 ≠ [] := by
  induction es generalizing m with
  | nil => exact hm
  | cons e es ih =>
    apply ih
    intro kb hkb
    rcases mem_dictPush hkb with h1 | h1 | h1
    · exact hm kb h1
    · obtain ⟨b₀, _, hb₂, _⟩ := h1
      rw [hb₂]
      simp
    · subst h1
      simp

theorem groupAux_uniform {k : String} {m : List (String × List Event)}
    (h : k ∉ m.map Prod.fst) (bs : List Event) (b₀ : List Event)
    (hall : ∀ e ∈ bs, e.trace_id = k) :
    groupAux (m ++ [(k, b₀)]) bs = m ++ [(k, b₀ ++ bs)] := by
  induction bs generalizing b₀ with
  | nil => simp [groupAux]
  | cons e es ih =>
    have hek : e.trace_id = k := hall e (List.mem_cons_self _ _)
    show groupAux (dictPush (m ++ [(k, b₀)]) e.trace_id e) es = _
    rw [hek, dictPush_append_found h]
    rw [ih (b₀ ++ [e]) (fun x hx => hall x (List.mem_cons_of_mem _ hx))]
    simp

theorem groupAux_flatten (L : List (String × List Event)) :
    ∀ (m : List (String × List Event)),
      (∀ k ∈ L.map Prod.fst, k ∉ m.map Prod.fst) →
      (L.map Prod.fst).Nodup →
      (∀ kb ∈ L, kb.2 ≠ []) →
      (∀ kb ∈ L, ∀ ev ∈ kb.2, ev.trace_id = kb.1) →
      groupAux m ((L.map Prod.snd).flatten) = m ++ L := by
  induction L with
  | nil => simp [groupAux]
  | cons kb rest ih =>
    obtain ⟨k, b⟩ := kb
    intro m hdisj hnd hne hkey
    obtain ⟨e₀, bs, rfl⟩ : ∃ e₀ bs, b = e₀ :: bs := by
      rcases b with _ | ⟨e₀, bs⟩
      · exact absurd rfl (hne _ (List.mem_cons_self _ _))
      · exact ⟨e₀, bs, rfl⟩
    have hkm : k ∉ m.map Prod.fst := hdisj k (by simp)
    have hkey₀ : ∀ ev ∈ e₀ :: bs, ev.trace_id = k := fun ev hev =>
      hkey _ (List.mem_cons_self _ _) ev hev
    have step1 : groupAux m (e₀ :: bs) = m ++ [(k, e₀ :: bs)] := by
      show groupAux (dictPush m e₀.trace_id e₀) bs = _
      rw [hkey₀ e₀ (List.mem_cons_self _ _), dictPush_not_mem hkm]
      exact groupAux_uniform hkm bs [e₀] (fun x hx => hkey₀ x (List.mem_cons_of_mem _ hx))
    have hsplit : ((((k, e₀ :: bs) :: rest).map Prod.snd).flatten) =
        (e₀ :: bs) ++ ((rest.map Prod.snd).flatten) := by simp
    rw [hsplit]
    show ((e₀ :: bs) ++ (rest.map Prod.snd).flatten).foldl _ m = _
    rw [List.foldl_append]
    have step2 := ih (m ++ [(k, e₀ :: bs)])
      (by
        intro k' hk' hk'm
        rw [List.map_append] at hk'm
        rcases List.mem_append.mp hk'm with h | h
        · exact hdisj k' (by simp [hk']) h
        · simp only [List.map_cons, List.map_nil, List.mem_singleton] at h
          subst h
          simp only [List.map_cons, List.nodup_cons] at hnd
          exact hnd.1 hk')
      (by simpa using (List.nodup_cons.mp (by simpa using hnd)).2)
      (fun kb hkb => hne kb (List.mem_cons_of_mem _ hkb))
      (fun kb hkb => hkey kb (List.mem_cons_of_mem _ hkb))
    show groupAux (groupAux m (e₀ :: bs)) ((rest.map Prod.snd).flatten) = _
    rw [step1, step2]
    simp

/-- Flattening a grouped mapping: buckets in presentation order, each in
its event order. -/
def flattenGrouped (g : List (String × List Event)) : List Event :=
  (g.map Prod.snd).flatten

theorem group_keys_nodup (env : PyEnv) (p : LogFlowParser) (entries : List EntryLike) :
    ((group_by_trace_id env p entries).map Prod.fst).Nodup := by
  unfold group_by_trace_id
  have hperm := (List.perm_insertionSort bucketLe
    ((groupCore (entries.map (normalize_entry env p))).map
      (fun kv => (kv.1, List.insertionSort eventKeyLe kv.2)))).map Prod.fst
  rw [hperm.nodup_iff]
  rw [List.map_map]
  have : (Prod.fst ∘ fun kv : String × List Event =>
      (kv.1, List.insertionSort eventKeyLe kv.2)) = Prod.fst := rfl
  rw [this]
  exact groupAux_keys_nodup (by simp) _

theorem group_mem_iff (env : PyEnv) (p : LogFlowParser) (entries : List EntryLike)
    {kb : String × List Event} :
    kb ∈ group_by_trace_id env p entries ↔
      ∃ kv ∈ groupCore (entries.map (normalize_entry env p)),
        kb = (kv.1, List.insertionSort eventKeyLe kv.2) := by
  unfold group_by_trace_id
  rw [List.mem_insertionSort, List.mem_map]
  constructor
  · rintro ⟨kv, h1, rfl⟩
    exact ⟨kv, h1, rfl⟩
  · rintro ⟨kv, h1, rfl⟩
    exact ⟨kv, h1, rfl⟩

theorem group_bucket_key (env : PyEnv) (p : LogFlowParser) (entries : List EntryLike)
    {kb : String × List Event} (h : kb ∈ group_by_trace_id env p entries) :
    ∀ ev ∈ kb.2, ev.trace_id = kb.1 := by
  obtain ⟨kv, hkv, rfl⟩ := (group_mem_iff env p entries).mp h
  intro ev hev
  rw [List.mem_insertionSort] at hev
  exact groupAux_key_prop (by simp) kv hkv ev hev

theorem group_bucket_ne_nil (env : PyEnv) (p : LogFlowParser) (entries : List EntryLike)
    {kb : String × List Event} (h : kb ∈ group_by_trace_id env p entries) : kb.2 ≠ [] := by
  obtain ⟨kv, hkv, rfl⟩ := (group_mem_iff env p entries).mp h
  have := @groupAux_ne_nil [] (entries.map (normalize_entry env p)) (by simp) kv hkv
  intro hc
  apply this
  have := congrArg List.length hc
  rw [List.length_insertionSort] at this
  exact List.length_eq_zero.mp this

theorem group_bucket_events_mem (env : PyEnv) (p : LogFlowParser) (entries : List EntryLike)
    {kb : String × List Event} (h : kb ∈ group_by_trace_id env p entries) :
    ∀ ev ∈ kb.2, ev ∈ entries.map (normalize_entry env p) := by
  obtain ⟨kv, hkv, rfl⟩ := (group_mem_iff env p entries).mp h
  intro ev hev
  rw [List.mem_insertionSort] at hev
  exact groupAux_bucket_prop (fun ev => ev ∈ entries.map (normalize_entry env p))
    (by simp) (fun x hx => hx) kv hkv ev hev

theorem group_bucket_sorted (env : PyEnv) (p : LogFlowParser) (entries : List EntryLike)
    {kb : String × List Event} (h : kb ∈ group_by_trace_id env p entries) :
    List.Sorted eventKeyLe kb.2 := by
  obtain ⟨kv, hkv, rfl⟩ := (group_mem_iff env p entries).mp h
  exact List.sorted_insertionSort eventKeyLe kv.2

theorem group_sorted (env : PyEnv) (p : LogFlowParser) (entries : List EntryLike) :
    List.Sorted bucketLe (group_by_trace_id env p entries) :=
  List.sorted_insertionSort bucketLe _

/-- Core idempotence: re-grouping the flattened presentation of a grouped
result (fed back as mappings) reproduces it exactly. -/
theorem group_idem_core (env : PyEnv) (p : LogFlowParser)
    (hp : pyStrip p.missing_trace_id = p.missing_trace_id)
    (hp2 : p.missing_trace_id ≠ "") (entries : List EntryLike) :
    group_by_trace_id env p
        ((flattenGrouped (group_by_trace_id env p entries)).map
          (fun ev => EntryLike.map (eventToDict ev)))
      = group_by_trace_id env p entries := by
  set G := group_by_trace_id env p entries with hG
  have hfix : ∀ ev ∈ flattenGrouped G,
      normalize_entry env p (.map (eventToDict ev)) = ev := by
    intro ev hev
    obtain ⟨b, hb, hevb⟩ := List.mem_flatten.mp hev
    obtain ⟨kb, hkb, rfl⟩ := List.mem_map.mp hb
    have hmem := group_bucket_events_mem env p entries hkb ev hevb
    obtain ⟨x, _, rfl⟩ := List.mem_map.mp hmem
    show normalizeRaw env p (eventToDict (normalizeRaw env p (rawOf x))) = _
    exact normalizeRaw_fixpoint env p hp hp2 (rawOf x)
  have hevents :
      ((flattenGrouped G).map (fun ev => EntryLike.map (eventToDict ev))).map
        (normalize_entry env p) = flattenGrouped G := by
    rw [List.map_map]
    simp only [Function.comp_def]
    rw [List.map_congr_left hfix, List.map_id']
  have hcore : groupCore (flattenGrouped G) = G := by
    rw [groupCore_eq_aux]
    have := groupAux_flatten G [] (by simp)
      (group_keys_nodup env p entries)
      (fun kb hkb => group_bucket_ne_nil env p entries hkb)
      (fun kb hkb => group_bucket_key env p entries hkb)
    simpa [flattenGrouped] using this
  have hsortB : G.map (fun kv => (kv.1, List.insertionSort eventKeyLe kv.2)) = G := by
    rw [List.map_congr_left (fun kb hkb => ?_), List.map_id']
    rw [(group_bucket_sorted env p entries hkb).insertionSort_eq]
  show group_by_trace_id env p _ = G
  unfold group_by_trace_id
  rw [hevents, hcore]
  show List.insertionSort bucketLe
    (G.map fun kv => (kv.1, List.insertionSort eventKeyLe kv.2)) = G
  rw [hsortB]
  exact (group_sorted env p entries).insertionSort_eq

/-! ## Characterizing the aggregation dictionaries -/

theorem dlookup_dictUpdate {κ α : Type} [DecidableEq κ]
    (m : List (κ × α)) (k k' : κ) (d : α) (f : α → α) :
    dlookup (dictUpdate m k d f) k' =
      if k' = k then some (f ((dlookup m k).getD d)) else dlookup m k' := by
  induction m with
  | nil =>
    by_cases h : k' = k
    · simp [dictUpdate, dlookup, h]
    · simp [dictUpdate, dlookup, h]
  | cons kv rest ih =>
    obtain ⟨k₀, v⟩ := kv
    by_cases hk : k = k₀
    · subst hk
      by_cases h : k' = k
      · subst h
        simp [dictUpdate, dlookup]
      · simp [dictUpdate, dlookup, h]
    · by_cases h : k' = k₀
      · subst h
        have h2 : ¬ k' = k := fun hc => hk hc.symm
        simp [dictUpdate, dlookup, hk, h2]
      · by_cases h2 : k' = k
        · subst h2
          simp [dictUpdate, dlookup, hk, h, ih]
        · simp [dictUpdate, dlookup, hk, h, h2, ih]

theorem dictUpdate_keys {κ α : Type} [DecidableEq κ]
    (m : List (κ × α)) (k : κ) (d : α) (f : α → α) :
    (dictUpdate m k d f).map Prod.fst =
      if k ∈ m.map Prod.fst then m.map Prod.fst else m.map Prod.fst ++ [k] := by
  induction m with
  | nil => simp [dictUpdate]
  | cons kv rest ih =>
    obtain ⟨k₀, v⟩ := kv
    by_cases h : k = k₀
    · subst h
      simp [dictUpdate]
    · rw [dictUpdate, if_neg h]
      simp only [List.map_cons, List.mem_cons, h, false_or]
      rw [ih]
      by_cases h2 : k ∈ rest.map Prod.fst
      · rw [if_pos h2, if_pos h2]
      · rw [if_neg h2, if_neg h2]
        rfl

theorem dictUpdate_keys_nodup {κ α : Type} [DecidableEq κ]
    {m : List (κ × α)} (h : (m.map Prod.fst).Nodup) (k : κ) (d : α) (f : α → α) :
    ((dictUpdate m k d f).map Prod.fst).Nodup := by
  rw [dictUpdate_keys]
  by_cases hm : k ∈ m.map Prod.fst
  · rwa [if_pos hm]
  · rw [if_neg hm]
    refine h.append (List.nodup_singleton k) ?_
    intro a ha hk
    rw [List.mem_singleton] at hk
    subst hk
    exact hm ha

theorem mem_dictUpdate {κ α : Type} [DecidableEq κ]
    {m : List (κ × α)} {k : κ} {d : α} {f : α → α} {kv : κ × α}
    (h : kv ∈ dictUpdate m k d f) :
    kv ∈ m ∨ (∃ v₀, kv = (k, f v₀) ∧ ((k, v₀) ∈ m ∨ v₀ = d)) := by
  induction m with
  | nil =>
    right
    exact ⟨d, by simpa [dictUpdate] using h, Or.inr rfl⟩
  | cons kv₀ rest ih =>
    obtain ⟨k₀, v₀⟩ := kv₀
    by_cases hk : k = k₀
    · subst hk
      rw [dictUpdate, if_pos rfl] at h
      rcases List.mem_cons.mp h with h1 | h1
      · exact Or.inr ⟨v₀, h1, Or.inl (List.mem_cons_self _ _)⟩
      · exact Or.inl (List.mem_cons_of_mem _ h1)
    · rw [dictUpdate, if_neg hk] at h
      rcases List.mem_cons.mp h with h1 | h1
      · exact Or.inl (by simp [h1])
      · rcases ih h1 with h2 | ⟨v₁, hv₁, hv₂⟩
        · exact Or.inl (List.mem_cons_of_mem _ h2)
        · refine Or.inr ⟨v₁, hv₁, ?_⟩
          rcases hv₂ with h3 | h3
          · exact Or.inl (List.mem_cons_of_mem _ h3)
          · exact Or.inr h3

theorem dlookup_of_mem {κ α : Type} [DecidableEq κ]
    {m : List (κ × α)} (hnd : (m.map Prod.fst).Nodup) {k : κ} {v : α}
    (h : (k, v) ∈ m) : dlookup m k = some v := by
  induction m with
  | nil => simp at h
  | cons kv rest ih =>
    obtain ⟨k₀, v₀⟩ := kv
    rcases List.mem_cons.mp h with h1 | h1
    · obtain ⟨rfl, rfl⟩ := Prod.mk.injEq .. ▸ h1
      injection h1 with h1a h1b
      simp [dlookup]
    · rw [List.map_cons, List.nodup_cons] at hnd
      have hne : k ≠ k₀ := by
        intro hc
        subst hc
        exact hnd.1 (List.mem_map.mpr ⟨(k, v), h1, rfl⟩)
      rw [dlookup, if_neg hne]
      exact ih hnd.2 h1

theorem mem_of_dlookup {κ α : Type} [DecidableEq κ]
    {m : List (κ × α)} {k : κ} {v : α} (h : dlookup m k = some v) : (k, v) ∈ m := by
  induction m with
  | nil => simp [dlookup] at h
  | cons kv rest ih =>
    obtain ⟨k₀, v₀⟩ := kv
    by_cases hk : k = k₀
    · subst hk
      rw [dlookup, if_pos rfl] at h
      injection h with h
      subst h
      exact List.mem_cons_self _ _
    · rw [dlookup, if_neg hk] at h
      exact List.mem_cons_of_mem _ (ih h)

theorem exists_value_of_key_mem {κ α : Type} [DecidableEq κ]
    {m : List (κ × α)} {k : κ} (h : k ∈ m.map Prod.fst) : ∃ v, (k, v) ∈ m := by
  obtain ⟨⟨k', v⟩, hm, hk⟩ := List.mem_map.mp h
  exact ⟨v, by cases hk; exact hm⟩

section TFold

variable {κ β α : Type} [DecidableEq κ] (key : β → κ) (dini : β → α) (upd : β → α → α)

/-- The generic keyed aggregation fold (`setdefault` + update per item). -/
def tfold (m : List (κ × α)) (ts : List β) : List (κ × α) :=
  ts.foldl (fun m b => dictUpdate m (key b) (dini b) (upd b)) m

/-- The aggregate a key's hit list produces, starting from an optional
existing value. -/
def applyAgg (o : Option α) (hits : List β) : Option α :=
  hits.foldl (fun o b => some (upd b (o.getD (dini b)))) o

theorem applyAgg_some (a : α) (bs : List β) :
    applyAgg dini upd (some a) bs = some (bs.foldl (fun a b => upd b a) a) := by
  induction bs generalizing a with
  | nil => rfl
  | cons b bs ih => exact ih _

theorem dlookup_tfold (ts : List β) (m : List (κ × α)) (k : κ) :
    dlookup (tfold key dini upd m ts) k =
      applyAgg dini upd (dlookup m k) (ts.filter (fun b => key b = k)) := by
  induction ts generalizing m with
  | nil => rfl
  | cons b ts ih =>
    show dlookup (tfold key dini upd (dictUpdate m (key b) (dini b) (upd b)) ts) k = _
    rw [ih]
    by_cases h : key b = k
    · rw [List.filter_cons_of_pos (by simpa using h)]
      rw [dlookup_dictUpdate, if_pos h.symm]
      subst h
      rfl
    · rw [List.filter_cons_of_neg (by simpa using h)]
      rw [dlookup_dictUpdate, if_neg (fun hc => h hc.symm)]

theorem tfold_keys_mem (ts : List β) (m : List (κ × α)) (k : κ) :
    k ∈ (tfold key dini upd m ts).map Prod.fst ↔
      k ∈ m.map Prod.fst ∨ k ∈ ts.map key := by
  induction ts generalizing m with
  | nil => simp [tfold]
  | cons b ts ih =>
    show k ∈ (tfold key dini upd (dictUpdate m (key b) (dini b) (upd b)) ts).map Prod.fst ↔ _
    rw [ih, dictUpdate_keys, List.map_cons, List.mem_cons]
    by_cases h : key b ∈ m.map Prod.fst
    · rw [if_pos h]
      constructor
      · rintro (h1 | h1)
        · exact Or.inl h1
        · exact Or.inr (Or.inr h1)
      · rintro (h1 | h1 | h1)
        · exact Or.inl h1
        · exact Or.inl (h1 ▸ h)
        · exact Or.inr h1
    · rw [if_neg h]
      constructor
      · rintro (h1 | h1)
        · rcases List.mem_append.mp h1 with h2 | h2
          · exact Or.inl h2
          · exact Or.inr (Or.inl (List.mem_singleton.mp h2))
        · exact Or.inr (Or.inr h1)
      · rintro (h1 | h1 | h1)
        · exact Or.inl (List.mem_append.mpr (Or.inl h1))
        · exact Or.inl (List.mem_append.mpr (Or.inr (by simp [h1])))
        · exact Or.inr h1

theorem tfold_keys_nodup (ts : List β) {m : List (κ × α)}
    (h : (m.map Prod.fst).Nodup) :
    ((tfold key dini upd m ts).map Prod.fst).Nodup := by
  induction ts generalizing m with
  | nil => exact h
  | cons b ts ih => exact ih (dictUpdate_keys_nodup h _ _ _)

theorem tfold_values_prop (P : α → Prop) (ts : List β) {m : List (κ × α)}
    (hm : ∀ kv ∈ m, P kv.2)
    (hupd : ∀ b a, P (upd b a)) :
    ∀ kv ∈ tfold key dini upd m ts, P kv.2 := by
  induction ts generalizing m with
  | nil => exact hm
  | cons b ts ih =>
    apply ih
    intro kv hkv
    rcases mem_dictUpdate hkv with h1 | ⟨v₀, rfl, _⟩
    · exact hm kv h1
    · exact hupd b v₀

end TFold

/-- The `(prev_node, event)` pairs the edge loop visits, given the cursor. -/
def pairNodes : Option String → List Event → List ((String × String) × Event)
  | _, [] => []
  | none, e :: rest => pairNodes (some e.node) rest
  | some pn, e :: rest => ((pn, e.node), e) :: pairNodes (some e.node) rest

theorem pairNodes_some (e : Event) (es : List Event) :
    pairNodes (some e.node) es =
      ((e :: es).zip es).map (fun pr => ((pr.1.node, pr.2.node), pr.2)) := by
  induction es generalizing e with
  | nil => rfl
  | cons e' rest ih => simp [pairNodes, List.zip_cons_cons, ih e']

theorem pairNodes_none (es : List Event) :
    pairNodes none es =
      (es.zip es.tail).map (fun pr => ((pr.1.node, pr.2.node), pr.2)) := by
  cases es with
  | nil => rfl
  | cons e rest =>
    show pairNodes (some e.node) rest = _
    rw [pairNodes_some]
    rfl

/-- Number of events carrying an exception marker. -/
def errCount (es : List Event) : Nat := es.countP (fun e => e.exception ≠ "")

/-- The `(trace_id, event)` node touches of a grouped input, in
processing order. -/
def touchesOf (grouped : List (String × List Event)) : List (String × Event) :=
  (grouped.map (fun kv => kv.2.map (fun e => (kv.1, e)))).flatten

/-- The `(trace_id, ((source, target), target_event))` edge touches of a
grouped input, in processing order. -/
def pairsOf (grouped : List (String × List Event)) :
    List (String × ((String × String) × Event)) :=
  (grouped.map (fun kv => (pairNodes none kv.2).map (fun pr => (kv.1, pr)))).flatten

/-- The nodes dictionary as a keyed fold over node touches. -/
def nodesFold (m : List (String × NodeAgg)) (ts : List (String × Event)) :
    List (String × NodeAgg) :=
  tfold (fun te => te.2.node) (fun te => nodeInit te.2) (fun te => nodeUpd te.1 te.2) m ts

/-- The edges dictionary as a keyed fold over edge touches. -/
def edgesFold (m : List ((String × String) × EdgeAgg))
    (ps : List (String × ((String × String) × Event))) :
    List ((String × String) × EdgeAgg) :=
  tfold (fun pr => pr.2.1) (fun pr => edgeInit pr.2.1) (fun pr => edgeUpd pr.1 pr.2.2) m ps

theorem processEvents_total_events (tid : String) (es : List Event) :
    ∀ (st : BuildState) (prev : Option String),
      (processEvents tid st prev es).total_events = st.total_events + es.length := by
  induction es with
  | nil => intro st prev; rfl
  | cons e rest ih =>
    intro st prev
    cases prev with
    | none =>
      rw [processEvents]
      dsimp only
      rw [ih]
      dsimp only
      rw [List.length_cons]
      omega
    | some pn =>
      rw [processEvents]
      dsimp only
      rw [ih]
      dsimp only
      rw [List.length_cons]
      omega

theorem processEvents_total_errors (tid : String) (es : List Event) :
    ∀ (st : BuildState) (prev : Option String),
      (processEvents tid st prev es).total_errors = st.total_errors + errCount es := by
  induction es with
  | nil => intro st prev; simp [processEvents, errCount]
  | cons e rest ih =>
    intro st prev
    have hcount : errCount (e :: rest) =
        errCount rest + (if e.exception ≠ "" then 1 else 0) := by
      simp [errCount, List.countP_cons]
    cases prev with
    | none =>
      rw [processEvents]
      dsimp only
      rw [ih]
      dsimp only
      rw [hcount]
      by_cases h : e.exception ≠ ""
      · rw [if_pos h, if_pos (by simpa using h)]
        omega
      · rw [if_neg h, if_neg (by simpa using h)]
        omega
    | some pn =>
      rw [processEvents]
      dsimp only
      rw [ih]
      dsimp only
      rw [hcount]
      by_cases h : e.exception ≠ ""
      · rw [if_pos h, if_pos (by simpa using h)]
        omega
      · rw [if_neg h, if_neg (by simpa using h)]
        omega

theorem processEvents_nodes (tid : String) (es : List Event) :
    ∀ (st : BuildState) (prev : Option String),
      (processEvents tid st prev es).nodes =
        nodesFold st.nodes (es.map (fun e => (tid, e))) := by
  induction es with
  | nil => intro st prev; rfl
  | cons e rest ih =>
    intro st prev
    cases prev with
    | none =>
      rw [processEvents]
      dsimp only
      rw [ih]
      rfl
    | some pn =>
      rw [processEvents]
      dsimp only
      rw [ih]
      rfl

theorem pairNodes_nil (prev : Option String) : pairNodes prev [] = [] := by
  cases prev <;> rfl

theorem processEvents_edges (tid : String) (es : List Event) :
    ∀ (st : BuildState) (prev : Option String),
      (processEvents tid st prev es).edges =
        edgesFold st.edges ((pairNodes prev es).map (fun pr => (tid, pr))) := by
  induction es with
  | nil =>
    intro st prev
    rw [pairNodes_nil]
    rfl
  | cons e rest ih =>
    intro st prev
    cases prev with
    | none =>
      rw [processEvents]
      dsimp only
      rw [ih]
      rfl
    | some pn =>
      rw [processEvents]
      dsimp only
      rw [ih]
      rfl

theorem tfold_append {κ β α : Type} [DecidableEq κ] (key : β → κ) (dini : β → α)
    (upd : β → α → α) (m : List (κ × α)) (ts₁ ts₂ : List β) :
    tfold key dini upd m (ts₁ ++ ts₂) = tfold key dini upd (tfold key dini upd m ts₁) ts₂ :=
  List.foldl_append ..

/-- The aggregation state `build_flow_graph` reaches on a grouped input. -/
def buildStateOf (grouped : List (String × List Event)) : BuildState :=
  grouped.foldl (fun st kv => processEvents kv.1 st none kv.2) initState

theorem buildState_nodes (grouped : List (String × List Event)) :
    ∀ st₀ : BuildState,
      (grouped.foldl (fun st kv => processEvents kv.1 st none kv.2) st₀).nodes =
        nodesFold st₀.nodes (touchesOf grouped) := by
  induction grouped with
  | nil => intro st₀; rfl
  | cons kv rest ih =>
    intro st₀
    show (rest.foldl _ (processEvents kv.1 st₀ none kv.2)).nodes = _
    rw [ih, processEvents_nodes]
    show _ = nodesFold st₀.nodes (touchesOf (kv :: rest))
    have : touchesOf (kv :: rest) =
        kv.2.map (fun e => (kv.1, e)) ++ touchesOf rest := by
      simp [touchesOf]
    rw [this]
    exact (tfold_append ..).symm

theorem buildState_edges (grouped : List (String × List Event)) :
    ∀ st₀ : BuildState,
      (grouped.foldl (fun st kv => processEvents kv.1 st none kv.2) st₀).edges =
        edgesFold st₀.edges (pairsOf grouped) := by
  induction grouped with
  | nil => intro st₀; rfl
  | cons kv rest ih =>
    intro st₀
    show (rest.foldl _ (processEvents kv.1 st₀ none kv.2)).edges = _
    rw [ih, processEvents_edges]
    have : pairsOf (kv :: rest) =
        (pairNodes none kv.2).map (fun pr => (kv.1, pr)) ++ pairsOf rest := by
      simp [pairsOf]
    rw [this]
    exact (tfold_append ..).symm

theorem buildState_total_events (grouped : List (String × List Event)) :
    ∀ st₀ : BuildState,
      (grouped.foldl (fun st kv => processEvents kv.1 st none kv.2) st₀).total_events =
        st₀.total_events + (flattenGrouped grouped).length := by
  induction grouped with
  | nil => intro st₀; simp [flattenGrouped]
  | cons kv rest ih =>
    intro st₀
    show (rest.foldl _ (processEvents kv.1 st₀ none kv.2)).total_events = _
    rw [ih, processEvents_total_events]
    have : (flattenGrouped (kv :: rest)).length =
        kv.2.length + (flattenGrouped rest).length := by
      simp [flattenGrouped]
    rw [this]
    omega

theorem buildState_total_errors (grouped : List (String × List Event)) :
    ∀ st₀ : BuildState,
      (grouped.foldl (fun st kv => processEvents kv.1 st none kv.2) st₀).total_errors =
        st₀.total_errors + errCount (flattenGrouped grouped) := by
  induction grouped with
  | nil => intro st₀; simp [flattenGrouped, errCount]
  | cons kv rest ih =>
    intro st₀
    show (rest.foldl _ (processEvents kv.1 st₀ none kv.2)).total_errors = _
    rw [ih, processEvents_total_errors]
    have : errCount (flattenGrouped (kv :: rest)) =
        errCount kv.2 + errCount (flattenGrouped rest) := by
      simp [flattenGrouped, errCount, List.countP_append]
    rw [this]
    omega

theorem mem_setInsert (l : List String) (x y : String) :
    y ∈ setInsert l x ↔ y ∈ l ∨ y = x := by
  unfold setInsert
  split
  · next h =>
    constructor
    · exact Or.inl
    · rintro (h1 | rfl)
      · exact h1
      · exact h
  · simp

theorem applyAgg_none {β α : Type} (dini : β → α)
    (upd : β → α → α) (hits : List β) :
    applyAgg dini upd (none : Option α) hits =
      match hits with
      | [] => none
      | b :: bs => some (bs.foldl (fun a b => upd b a) (upd b (dini b))) := by
  cases hits with
  | nil => rfl
  | cons b bs =>
    show applyAgg dini upd (some (upd b ((Option.getD none (dini b))))) bs = _
    rw [applyAgg_some]
    rfl

/-! Aggregate-value lemmas for the node fold. -/

theorem nodeFoldl_calls (bs : List (String × Event)) (a : NodeAgg) :
    (bs.foldl (fun a te => nodeUpd te.1 te.2 a) a).calls = a.calls + bs.length := by
  induction bs generalizing a with
  | nil => rfl
  | cons b bs ih =>
    rw [List.foldl_cons, ih]
    show (nodeUpd b.1 b.2 a).calls + bs.length = _
    rw [List.length_cons]
    show a.calls + 1 + bs.length = _
    omega

theorem nodeFoldl_errors (bs : List (String × Event)) (a : NodeAgg) :
    (bs.foldl (fun a te => nodeUpd te.1 te.2 a) a).errors =
      a.errors + errCount (bs.map Prod.snd) := by
  induction bs generalizing a with
  | nil => simp [errCount]
  | cons b bs ih =>
    rw [List.foldl_cons, ih]
    have : errCount ((b :: bs).map Prod.snd) =
        (if b.2.exception ≠ "" then 1 else 0) + errCount (bs.map Prod.snd) := by
      simp only [List.map_cons, errCount, List.countP_cons]
      by_cases h : b.2.exception ≠ ""
      · rw [if_pos (by simpa using h), if_pos h]
        omega
      · rw [if_neg (by simpa using h), if_neg h]
        omega
    rw [this]
    show (nodeUpd b.1 b.2 a).errors + _ = _
    unfold nodeUpd
    dsimp only
    by_cases h : b.2.exception ≠ ""
    · rw [if_pos h, if_pos h]
      omega
    · rw [if_neg h, if_neg h]
      omega

theorem nodeFoldl_total (bs : List (String × Event)) (a : NodeAgg) :
    (bs.foldl (fun a te => nodeUpd te.1 te.2 a) a).total_duration_ms =
      a.total_duration_ms + (bs.map (fun te => te.2.duration_ms)).sum := by
  induction bs generalizing a with
  | nil => simp
  | cons b bs ih =>
    rw [List.foldl_cons, ih]
    show (nodeUpd b.1 b.2 a).total_duration_ms + _ = _
    unfold nodeUpd
    dsimp only
    rw [List.map_cons, List.sum_cons]
    ring

theorem nodeFoldl_trace_ids (bs : List (String × Event)) (a : NodeAgg) (tid : String) :
    tid ∈ (bs.foldl (fun a te => nodeUpd te.1 te.2 a) a).trace_ids ↔
      tid ∈ a.trace_ids ∨ tid ∈ bs.map Prod.fst := by
  induction bs generalizing a with
  | nil => simp
  | cons b bs ih =>
    rw [List.foldl_cons, ih]
    show (tid ∈ (nodeUpd b.1 b.2 a).trace_ids ∨ _) ↔ _
    unfold nodeUpd
    dsimp only
    rw [mem_setInsert, List.map_cons, List.mem_cons]
    tauto

theorem nodeFoldl_const (bs : List (String × Event)) (a : NodeAgg) :
    (bs.foldl (fun a te => nodeUpd te.1 te.2 a) a).id = a.id ∧
      (bs.foldl (fun a te => nodeUpd te.1 te.2 a) a).module = a.module ∧
      (bs.foldl (fun a te => nodeUpd te.1 te.2 a) a).function_name = a.function_name := by
  induction bs generalizing a with
  | nil => exact ⟨rfl, rfl, rfl⟩
  | cons b bs ih => exact ih (nodeUpd b.1 b.2 a)

/-! Aggregate-value lemmas for the edge fold. -/

theorem edgeFoldl_count (bs : List (String × ((String × String) × Event))) (a : EdgeAgg) :
    (bs.foldl (fun a pr => edgeUpd pr.1 pr.2.2 a) a).count = a.count + bs.length := by
  induction bs generalizing a with
  | nil => rfl
  | cons b bs ih =>
    rw [List.foldl_cons, ih]
    show (edgeUpd b.1 b.2.2 a).count + bs.length = _
    rw [List.length_cons]
    show a.count + 1 + bs.length = _
    omega

theorem edgeFoldl_errors (bs : List (String × ((String × String) × Event))) (a : EdgeAgg) :
    (bs.foldl (fun a pr => edgeUpd pr.1 pr.2.2 a) a).error_count =
      a.error_count + errCount (bs.map (fun pr => pr.2.2)) := by
  induction bs generalizing a with
  | nil => simp [errCount]
  | cons b bs ih =>
    rw [List.foldl_cons, ih]
    have : errCount ((b :: bs).map (fun pr => pr.2.2)) =
        (if b.2.2.exception ≠ "" then 1 else 0) + errCount (bs.map (fun pr => pr.2.2)) := by
      simp only [List.map_cons, errCount, List.countP_cons]
      by_cases h : b.2.2.exception ≠ ""
      · rw [if_pos (by simpa using h), if_pos h]
        omega
      · rw [if_neg (by simpa using h), if_neg h]
        omega
    rw [this]
    show (edgeUpd b.1 b.2.2 a).error_count + _ = _
    unfold edgeUpd
    dsimp only
    by_cases h : b.2.2.exception ≠ ""
    · rw [if_pos h, if_pos h]
      omega
    · rw [if_neg h, if_neg h]
      omega

theorem edgeFoldl_trace_ids (bs : List (String × ((String × String) × Event)))
    (a : EdgeAgg) (tid : String) :
    tid ∈ (bs.foldl (fun a pr => edgeUpd pr.1 pr.2.2 a) a).trace_ids ↔
      tid ∈ a.trace_ids ∨ tid ∈ bs.map Prod.fst := by
  induction bs generalizing a with
  | nil => simp
  | cons b bs ih =>
    rw [List.foldl_cons, ih]
    show (tid ∈ (edgeUpd b.1 b.2.2 a).trace_ids ∨ _) ↔ _
    unfold edgeUpd
    dsimp only
    rw [mem_setInsert, List.map_cons, List.mem_cons]
    tauto

theorem edgeFoldl_const (bs : List (String × ((String × String) × Event))) (a : EdgeAgg) :
    (bs.foldl (fun a pr => edgeUpd pr.1 pr.2.2 a) a).source = a.source ∧
      (bs.foldl (fun a pr => edgeUpd pr.1 pr.2.2 a) a).target = a.target := by
  induction bs generalizing a with
  | nil => exact ⟨rfl, rfl⟩
  | cons b bs ih => exact ih (edgeUpd b.1 b.2.2 a)

/-! Projections of the built graph. -/

theorem buildFromGrouped_nodes (grouped : List (String × List Event)) :
    (buildFromGrouped grouped).nodes =
      List.insertionSort nodeRankLe
        ((buildStateOf grouped).nodes.map (fun kv => mkNodeRow kv.2)) := rfl

theorem buildFromGrouped_edges (grouped : List (String × List Event)) :
    (buildFromGrouped grouped).edges =
      List.insertionSort edgeRankLe
        ((buildStateOf grouped).edges.map (fun kv => mkEdgeRow kv.2)) := rfl

theorem buildFromGrouped_traces (grouped : List (String × List Event)) :
    (buildFromGrouped grouped).traces =
      List.insertionSort traceRankLe
        (grouped.map (fun kv => mkTraceRow kv.1 kv.2)) := rfl

theorem buildFromGrouped_node_count (grouped : List (String × List Event)) :
    (buildFromGrouped grouped).stats.node_count = (buildFromGrouped grouped).nodes.length := rfl

theorem buildFromGrouped_edge_count (grouped : List (String × List Event)) :
    (buildFromGrouped grouped).stats.edge_count = (buildFromGrouped grouped).edges.length := rfl

theorem buildFromGrouped_event_count (grouped : List (String × List Event)) :
    (buildFromGrouped grouped).stats.event_count = (buildStateOf grouped).total_events := rfl

theorem buildFromGrouped_error_count (grouped : List (String × List Event)) :
    (buildFromGrouped grouped).stats.error_count = (buildStateOf grouped).total_errors := rfl

theorem buildFromGrouped_trace_count (grouped : List (String × List Event)) :
    (buildFromGrouped grouped).stats.trace_count = grouped.length := rfl

/-- The nodes dictionary at any key is the fold of that key's hits. -/
theorem nodes_lookup_spec (grouped : List (String × List Event)) (n : String) :
    dlookup (buildStateOf grouped).nodes n =
      match (touchesOf grouped).filter (fun te => te.2.node = n) with
      | [] => none
      | t :: ts =>
        some (ts.foldl (fun a te => nodeUpd te.1 te.2 a) (nodeUpd t.1 t.2 (nodeInit t.2))) := by
  have h1 : (buildStateOf grouped).nodes = nodesFold initState.nodes (touchesOf grouped) :=
    buildState_nodes grouped initState
  rw [h1]
  unfold nodesFold
  have h2 := dlookup_tfold (κ := String) (β := String × Event) (α := NodeAgg)
    (fun te => te.2.node) (fun te => nodeInit te.2) (fun te => nodeUpd te.1 te.2)
    (touchesOf grouped) initState.nodes n
  rw [h2]
  show applyAgg _ _ none _ = _
  rw [applyAgg_none]
  split <;> rename_i heq
  · rw [heq]
  · rw [heq]

/-- The edges dictionary at any key is the fold of that key's hits. -/
theorem edges_lookup_spec (grouped : List (String × List Event)) (k : String × String) :
    dlookup (buildStateOf grouped).edges k =
      match (pairsOf grouped).filter (fun pr => pr.2.1 = k) with
      | [] => none
      | t :: ts =>
        some (ts.foldl (fun a pr => edgeUpd pr.1 pr.2.2 a) (edgeUpd t.1 t.2.2 (edgeInit t.2.1))) := by
  have h1 : (buildStateOf grouped).edges = edgesFold initState.edges (pairsOf grouped) :=
    buildState_edges grouped initState
  rw [h1]
  unfold edgesFold
  have h2 := dlookup_tfold (κ := String × String)
    (β := String × ((String × String) × Event)) (α := EdgeAgg)
    (fun pr => pr.2.1) (fun pr => edgeInit pr.2.1) (fun pr => edgeUpd pr.1 pr.2.2)
    (pairsOf grouped) initState.edges k
  rw [h2]
  show applyAgg _ _ none _ = _
  rw [applyAgg_none]
  split <;> rename_i heq
  · rw [heq]
  · rw [heq]

theorem buildStateOf_nodes (grouped : List (String × List Event)) :
    (buildStateOf grouped).nodes = nodesFold initState.nodes (touchesOf grouped) :=
  buildState_nodes grouped initState

theorem buildStateOf_edges (grouped : List (String × List Event)) :
    (buildStateOf grouped).edges = edgesFold initState.edges (pairsOf grouped) :=
  buildState_edges grouped initState

theorem nodes_keys_nodup (grouped : List (String × List Event)) :
    ((buildStateOf grouped).nodes.map Prod.fst).Nodup := by
  rw [buildStateOf_nodes]
  exact tfold_keys_nodup _ _ _ _ (by simp [initState])

theorem edges_keys_nodup (grouped : List (String × List Event)) :
    ((buildStateOf grouped).edges.map Prod.fst).Nodup := by
  rw [buildStateOf_edges]
  exact tfold_keys_nodup _ _ _ _ (by simp [initState])

theorem nodes_keys_mem (grouped : List (String × List Event)) (n : String) :
    n ∈ (buildStateOf grouped).nodes.map Prod.fst ↔
      n ∈ (touchesOf grouped).map (fun te => te.2.node) := by
  rw [buildStateOf_nodes]
  unfold nodesFold
  have h2 := tfold_keys_mem (κ := String) (β := String × Event) (α := NodeAgg)
    (fun te => te.2.node) (fun te => nodeInit te.2) (fun te => nodeUpd te.1 te.2)
    (touchesOf grouped) initState.nodes n
  rw [h2]
  simp [initState]

theorem edges_keys_mem (grouped : List (String × List Event)) (k : String × String) :
    k ∈ (buildStateOf grouped).edges.map Prod.fst ↔
      k ∈ (pairsOf grouped).map (fun pr => pr.2.1) := by
  rw [buildStateOf_edges]
  unfold edgesFold
  have h2 := tfold_keys_mem (κ := String × String)
    (β := String × ((String × String) × Event)) (α := EdgeAgg)
    (fun pr => pr.2.1) (fun pr => edgeInit pr.2.1) (fun pr => edgeUpd pr.1 pr.2.2)
    (pairsOf grouped) initState.edges k
  rw [h2]
  simp [initState]

theorem buildStateOf_total_events (grouped : List (String × List Event)) :
    (buildStateOf grouped).total_events = (flattenGrouped grouped).length := by
  have h : (buildStateOf grouped).total_events =
      initState.total_events + (flattenGrouped grouped).length :=
    buildState_total_events grouped initState
  rw [h]
  show 0 + _ = _
  omega

theorem buildStateOf_total_errors (grouped : List (String × List Event)) :
    (buildStateOf grouped).total_errors = errCount (flattenGrouped grouped) := by
  have h : (buildStateOf grouped).total_errors =
      initState.total_errors + errCount (flattenGrouped grouped) :=
    buildState_total_errors grouped initState
  rw [h]
  show 0 + _ = _
  omega

theorem touches_map_node (grouped : List (String × List Event)) :
    (touchesOf grouped).map (fun te => te.2.node) = (flattenGrouped grouped).map (·.node) := by
  unfold touchesOf flattenGrouped
  rw [List.map_flatten, List.map_flatten, List.map_map, List.map_map]
  congr 1
  apply List.map_congr_left
  intro kv _
  simp [List.map_map, Function.comp_def]

theorem touches_map_snd (grouped : List (String × List Event)) :
    (touchesOf grouped).map Prod.snd = flattenGrouped grouped := by
  unfold touchesOf flattenGrouped
  rw [List.map_flatten, List.map_map]
  congr 1
  apply List.map_congr_left
  intro kv _
  simp [List.map_map, Function.comp_def]

theorem touches_length (grouped : List (String × List Event)) :
    (touchesOf grouped).length = (flattenGrouped grouped).length := by
  rw [← touches_map_snd grouped, List.length_map]

theorem sum_calls_dictUpdate (m : List (String × NodeAgg)) (te : String × Event) :
    ((dictUpdate m te.2.node (nodeInit te.2) (nodeUpd te.1 te.2)).map
        (fun kv => kv.2.calls)).sum =
      (m.map (fun kv => kv.2.calls)).sum + 1 := by
  induction m with
  | nil => simp [dictUpdate, nodeUpd, nodeInit]
  | cons kv rest ih =>
    obtain ⟨k₀, v⟩ := kv
    by_cases h : te.2.node = k₀
    · rw [dictUpdate, if_pos h]
      simp only [List.map_cons, List.sum_cons]
      show v.calls + 1 + _ = _
      omega
    · rw [dictUpdate, if_neg h]
      simp only [List.map_cons, List.sum_cons]
      rw [ih]
      omega

theorem sum_calls_nodesFold (ts : List (String × Event)) :
    ∀ m : List (String × NodeAgg),
      ((nodesFold m ts).map (fun kv => kv.2.calls)).sum =
        (m.map (fun kv => kv.2.calls)).sum + ts.length := by
  induction ts with
  | nil => intro m; rfl
  | cons te ts ih =>
    intro m
    show ((nodesFold (dictUpdate m te.2.node (nodeInit te.2) (nodeUpd te.1 te.2)) ts).map
        (fun kv => kv.2.calls)).sum = _
    rw [ih, sum_calls_dictUpdate, List.length_cons]
    omega

theorem build_node_count (grouped : List (String × List Event)) :
    (buildFromGrouped grouped).stats.node_count =
      ((flattenGrouped grouped).map (·.node)).dedup.length := by
  rw [buildFromGrouped_node_count, buildFromGrouped_nodes,
    List.length_insertionSort, List.length_map]
  rw [← List.length_map (buildStateOf grouped).nodes Prod.fst]
  have hperm : List.Perm ((buildStateOf grouped).nodes.map Prod.fst)
      ((flattenGrouped grouped).map (·.node)).dedup := by
    apply (List.perm_ext_iff_of_nodup (nodes_keys_nodup grouped)
      (List.nodup_dedup _)).mpr
    intro a
    rw [List.mem_dedup, nodes_keys_mem, touches_map_node]
  exact hperm.length_eq

theorem build_sum_calls (grouped : List (String × List Event)) :
    ((buildFromGrouped grouped).nodes.map (·.calls)).sum =
      (buildFromGrouped grouped).stats.event_count := by
  rw [buildFromGrouped_event_count, buildFromGrouped_nodes]
  have hperm := List.perm_insertionSort nodeRankLe
    ((buildStateOf grouped).nodes.map (fun kv => mkNodeRow kv.2))
  rw [(hperm.map (·.calls)).sum_eq]
  rw [List.map_map]
  have : ((·.calls) ∘ fun kv : String × NodeAgg => mkNodeRow kv.2) =
      fun kv : String × NodeAgg => kv.2.calls := rfl
  rw [this]
  rw [buildStateOf_nodes, sum_calls_nodesFold, touches_length, buildStateOf_total_events]
  show 0 + _ = _
  omega

/-- The chronologically adjacent same-trace event pairs of a grouped
input, tagged with their trace id. -/
def tracePairs (grouped : List (String × List Event)) : List (String × (Event × Event)) :=
  (grouped.map (fun kv => (kv.2.zip kv.2.tail).map (fun pr => (kv.1, pr)))).flatten

theorem pairsOf_eq (grouped : List (String × List Event)) :
    pairsOf grouped = (tracePairs grouped).map
      (fun tp => (tp.1, ((tp.2.1.node, tp.2.2.node), tp.2.2))) := by
  unfold pairsOf tracePairs
  rw [List.map_flatten, List.map_map]
  congr 1
  apply List.map_congr_left
  intro kv _
  rw [pairNodes_none]
  simp [List.map_map, Function.comp_def]

/-- Every entry of the edges dictionary aggregates exactly its key's
adjacent-pair hits: `count` counts them, `error_count` counts those whose
target event carries an exception, `trace_ids` collects their trace ids,
and `source`/`target` are the key. -/
theorem edge_agg_spec (grouped : List (String × List Event))
    {kv : (String × String) × EdgeAgg} (hkv : kv ∈ (buildStateOf grouped).edges) :
    kv.2.source = kv.1.1 ∧ kv.2.target = kv.1.2 ∧
      kv.2.count = ((pairsOf grouped).filter (fun pr => pr.2.1 = kv.1)).length ∧
      kv.2.error_count =
        errCount (((pairsOf grouped).filter (fun pr => pr.2.1 = kv.1)).map (fun pr => pr.2.2)) ∧
      (∀ tid, tid ∈ kv.2.trace_ids ↔
        tid ∈ ((pairsOf grouped).filter (fun pr => pr.2.1 = kv.1)).map Prod.fst) := by
  have hlk : dlookup (buildStateOf grouped).edges kv.1 = some kv.2 :=
    dlookup_of_mem (edges_keys_nodup grouped) (by cases kv; exact hkv)
  rw [edges_lookup_spec] at hlk
  cases hh : (pairsOf grouped).filter (fun pr => pr.2.1 = kv.1) with
  | nil =>
    rw [hh] at hlk
    simp at hlk
  | cons t ts =>
    rw [hh] at hlk
    simp only [Option.some.injEq] at hlk
    have htmem : t ∈ (pairsOf grouped).filter (fun pr => pr.2.1 = kv.1) := by
      rw [hh]
      exact List.mem_cons_self _ _
    have htk : t.2.1 = kv.1 := by
      have := (List.mem_filter.mp htmem).2
      simpa using this
    have hconst := edgeFoldl_const ts (edgeUpd t.1 t.2.2 (edgeInit t.2.1))
    refine ⟨?_, ?_, ?_, ?_, ?_⟩
    · rw [← hlk, hconst.1]
      show t.2.1.1 = kv.1.1
      rw [htk]
    · rw [← hlk, hconst.2]
      show t.2.1.2 = kv.1.2
      rw [htk]
    · rw [← hlk, edgeFoldl_count]
      show (edgeInit t.2.1).count + 1 + ts.length = _
      show 0 + 1 + ts.length = _
      rw [List.length_cons]
      omega
    · rw [← hlk, edgeFoldl_errors]
      have hcount : errCount ((t :: ts).map (fun pr => pr.2.2)) =
          (if t.2.2.exception ≠ "" then 1 else 0) + errCount (ts.map (fun pr => pr.2.2)) := by
        simp only [List.map_cons, errCount, List.countP_cons]
        by_cases h : t.2.2.exception ≠ ""
        · rw [if_pos (by simpa using h), if_pos h]
          omega
        · rw [if_neg (by simpa using h), if_neg h]
          omega
      rw [hcount]
      show (edgeUpd t.1 t.2.2 (edgeInit t.2.1)).error_count + _ = _
      unfold edgeUpd edgeInit
      dsimp only
    · intro tid
      rw [← hlk, edgeFoldl_trace_ids]
      show (tid ∈ (edgeUpd t.1 t.2.2 (edgeInit t.2.1)).trace_ids ∨ _) ↔ _
      unfold edgeUpd edgeInit
      dsimp only
      rw [mem_setInsert, List.map_cons, List.mem_cons]
      simp only [List.not_mem_nil, false_or]

/-- Every entry of the nodes dictionary aggregates exactly its key's
event hits. -/
theorem node_agg_spec (grouped : List (String × List Event))
    {kv : String × NodeAgg} (hkv : kv ∈ (buildStateOf grouped).nodes) :
    kv.2.id = kv.1 ∧
      kv.2.calls = ((touchesOf grouped).filter (fun te => te.2.node = kv.1)).length ∧
      1 ≤ kv.2.calls ∧
      kv.2.errors =
        errCount (((touchesOf grouped).filter (fun te => te.2.node = kv.1)).map Prod.snd) ∧
      kv.2.total_duration_ms =
        (((touchesOf grouped).filter (fun te => te.2.node = kv.1)).map
          (fun te => te.2.duration_ms)).sum ∧
      (∀ tid, tid ∈ kv.2.trace_ids ↔
        tid ∈ ((touchesOf grouped).filter (fun te => te.2.node = kv.1)).map Prod.fst) := by
  have hlk : dlookup (buildStateOf grouped).nodes kv.1 = some kv.2 :=
    dlookup_of_mem (nodes_keys_nodup grouped) (by cases kv; exact hkv)
  rw [nodes_lookup_spec] at hlk
  cases hh : (touchesOf grouped).filter (fun te => te.2.node = kv.1) with
  | nil =>
    rw [hh] at hlk
    simp at hlk
  | cons t ts =>
    rw [hh] at hlk
    simp only [Option.some.injEq] at hlk
    have htmem : t ∈ (touchesOf grouped).filter (fun te => te.2.node = kv.1) := by
      rw [hh]
      exact List.mem_cons_self _ _
    have htk : t.2.node = kv.1 := by
      have := (List.mem_filter.mp htmem).2
      simpa using this
    have hconst := nodeFoldl_const ts (nodeUpd t.1 t.2 (nodeInit t.2))
    refine ⟨?_, ?_, ?_, ?_, ?_, ?_⟩
    · rw [← hlk, hconst.1]
      show t.2.node = kv.1
      exact htk
    · rw [← hlk, nodeFoldl_calls]
      show (nodeInit t.2).calls + 1 + ts.length = _
      show 0 + 1 + ts.length = _
      rw [List.length_cons]
      omega
    · rw [← hlk, nodeFoldl_calls]
      show (nodeInit t.2).calls + 1 + ts.length ≥ 1
      omega
    · rw [← hlk, nodeFoldl_errors]
      have hcount : errCount ((t :: ts).map Prod.snd) =
          (if t.2.exception ≠ "" then 1 else 0) + errCount (ts.map Prod.snd) := by
        simp only [List.map_cons, errCount, List.countP_cons]
        by_cases h : t.2.exception ≠ ""
        · rw [if_pos (by simpa using h), if_pos h]
          omega
        · rw [if_neg (by simpa using h), if_neg h]
          omega
      rw [hcount]
      show (nodeUpd t.1 t.2 (nodeInit t.2)).errors + _ = _
      unfold nodeUpd nodeInit
      dsimp only
    · rw [← hlk, nodeFoldl_total]
      show (nodeUpd t.1 t.2 (nodeInit t.2)).total_duration_ms + _ = _
      unfold nodeUpd nodeInit
      dsimp only
      rw [List.map_cons, List.sum_cons]
      ring
    · intro tid
      rw [← hlk, nodeFoldl_trace_ids]
      show (tid ∈ (nodeUpd t.1 t.2 (nodeInit t.2)).trace_ids ∨ _) ↔ _
      unfold nodeUpd nodeInit
      dsimp only
      rw [mem_setInsert, List.map_cons, List.mem_cons]
      simp only [List.not_mem_nil, false_or]

theorem edge_hits_eq (grouped : List (String × List Event)) (k : String × String) :
    (pairsOf grouped).filter (fun pr => pr.2.1 = k) =
      ((tracePairs grouped).filter
        (fun tp => tp.2.1.node = k.1 ∧ tp.2.2.node = k.2)).map
        (fun tp => (tp.1, ((tp.2.1.node, tp.2.2.node), tp.2.2))) := by
  rw [pairsOf_eq, List.filter_map]
  congr 1
  apply List.filter_congr
  intro tp _
  show decide ((tp.2.1.node, tp.2.2.node) = k) = decide (tp.2.1.node = k.1 ∧ tp.2.2.node = k.2)
  apply decide_eq_decide.mpr
  rw [Prod.ext_iff]

/-- Edge rows of the built graph: each one counts exactly the adjacent
same-trace pairs with its `(source, target)` node signature, and its
`error_count` counts exactly those pairs whose second (target) event
carries an exception marker. -/
theorem build_edges_spec (grouped : List (String × List Event)) :
    ∀ er ∈ (buildFromGrouped grouped).edges,
      er.count = ((tracePairs grouped).filter
          (fun tp => tp.2.1.node = er.source ∧ tp.2.2.node = er.target)).length ∧
        er.error_count = ((tracePairs grouped).filter
          (fun tp => (tp.2.1.node = er.source ∧ tp.2.2.node = er.target) ∧
            tp.2.2.exception ≠ "")).length := by
  intro er her
  rw [buildFromGrouped_edges, List.mem_insertionSort] at her
  obtain ⟨kv, hkv, rfl⟩ := List.mem_map.mp her
  obtain ⟨hs, ht, hc, he, _⟩ := edge_agg_spec grouped hkv
  have hsrc : (mkEdgeRow kv.2).source = kv.1.1 := hs
  have htgt : (mkEdgeRow kv.2).target = kv.1.2 := ht
  rw [hsrc, htgt]
  constructor
  · show kv.2.count = _
    rw [hc, edge_hits_eq, List.length_map]
  · show kv.2.error_count = _
    rw [he, edge_hits_eq]
    unfold errCount
    rw [List.map_map]
    have hcomp : ((fun pr : String × ((String × String) × Event) => pr.2.2) ∘
        fun tp : String × (Event × Event) => (tp.1, ((tp.2.1.node, tp.2.2.node), tp.2.2))) =
        fun tp : String × (Event × Event) => tp.2.2 := rfl
    rw [hcomp]
    rw [List.countP_map]
    rw [List.countP_filter]
    rw [List.countP_eq_length_filter]
    congr 1
    apply List.filter_congr
    intro tp _
    show (decide (tp.2.2.exception ≠ "") && decide (tp.2.1.node = kv.1.1 ∧ tp.2.2.node = kv.1.2))
        = decide ((tp.2.1.node = kv.1.1 ∧ tp.2.2.node = kv.1.2) ∧ tp.2.2.exception ≠ "")
    by_cases h1 : tp.2.2.exception ≠ "" <;>
      by_cases h2 : tp.2.1.node = kv.1.1 ∧ tp.2.2.node = kv.1.2 <;>
        simp [h1, h2]

/-- An edge row with a given `(source, target)` exists iff some adjacent
same-trace pair of events has that node signature. -/
theorem build_edges_exists (grouped : List (String × List Event)) (s t : String) :
    (∃ er ∈ (buildFromGrouped grouped).edges, er.source = s ∧ er.target = t) ↔
      ∃ tp ∈ tracePairs grouped, tp.2.1.node = s ∧ tp.2.2.node = t := by
  constructor
  · rintro ⟨er, her, hs, ht⟩
    rw [buildFromGrouped_edges, List.mem_insertionSort] at her
    obtain ⟨kv, hkv, rfl⟩ := List.mem_map.mp her
    obtain ⟨hs', ht', _, _, _⟩ := edge_agg_spec grouped hkv
    have hkey : kv.1 = (s, t) := by
      have h1 : (mkEdgeRow kv.2).source = kv.1.1 := hs'
      have h2 : (mkEdgeRow kv.2).target = kv.1.2 := ht'
      rw [hs] at h1
      rw [ht] at h2
      exact Prod.ext h1.symm h2.symm
    have hmemk : kv.1 ∈ (buildStateOf grouped).edges.map Prod.fst :=
      List.mem_map.mpr ⟨kv, hkv, rfl⟩
    rw [edges_keys_mem] at hmemk
    obtain ⟨pr, hpr, hprk⟩ := List.mem_map.mp hmemk
    rw [pairsOf_eq] at hpr
    obtain ⟨tp, htp, rfl⟩ := List.mem_map.mp hpr
    refine ⟨tp, htp, ?_⟩
    have : (tp.2.1.node, tp.2.2.node) = (s, t) := by
      rw [← hkey]
      exact hprk
    exact ⟨congrArg Prod.fst this, congrArg Prod.snd this⟩
  · rintro ⟨tp, htp, hs, ht⟩
    have hpr : ((s, t) : String × String) ∈ (pairsOf grouped).map (fun pr => pr.2.1) := by
      rw [pairsOf_eq, List.map_map]
      apply List.mem_map.mpr
      exact ⟨tp, htp, by rw [← hs, ← ht]; rfl⟩
    rw [← edges_keys_mem] at hpr
    obtain ⟨v, hv⟩ := exists_value_of_key_mem hpr
    obtain ⟨hs', ht', _, _, _⟩ := edge_agg_spec grouped hv
    refine ⟨mkEdgeRow v, ?_, hs', ht'⟩
    rw [buildFromGrouped_edges, List.mem_insertionSort]
    exact List.mem_map.mpr ⟨((s, t), v), hv, rfl⟩

/-- Every node row has `calls ≥ 1` and both duration fields are the
3-decimal rounding of the same raw accumulated total (for the average,
divided by `calls` before rounding). -/
theorem build_nodes_avg_spec (grouped : List (String × List Event)) :
    ∀ nr ∈ (buildFromGrouped grouped).nodes,
      1 ≤ nr.calls ∧ ∃ q : Rat, nr.total_duration_ms = pyRound3 q ∧
        nr.avg_duration_ms = pyRound3 (q / (nr.calls : Rat)) := by
  intro nr hnr
  rw [buildFromGrouped_nodes, List.mem_insertionSort] at hnr
  obtain ⟨kv, hkv, rfl⟩ := List.mem_map.mp hnr
  obtain ⟨_, _, hcalls, _, _, _⟩ := node_agg_spec grouped hkv
  have hc : (mkNodeRow kv.2).calls = kv.2.calls := rfl
  refine ⟨by rw [hc]; exact hcalls, kv.2.total_duration_ms, rfl, ?_⟩
  show pyRound3 (kv.2.total_duration_ms /
      ((if kv.2.calls = 0 then 1 else kv.2.calls : Nat) : Rat)) = _
  rw [if_neg (by omega)]
  rw [hc]

theorem touchesOf_mem_of (grouped : List (String × List Event)) {k : String}
    {bucket : List Event} {e : Event} (h : (k, bucket) ∈ grouped) (he : e ∈ bucket) :
    (k, e) ∈ touchesOf grouped := by
  unfold touchesOf
  rw [List.mem_flatten]
  exact ⟨bucket.map (fun e => (k, e)), List.mem_map.mpr ⟨(k, bucket), h, rfl⟩,
    List.mem_map.mpr ⟨e, he, rfl⟩⟩

theorem tracePairs_mem_of (grouped : List (String × List Event)) {k : String}
    {bucket : List Event} {pr : Event × Event} (h : (k, bucket) ∈ grouped)
    (hpr : pr ∈ bucket.zip bucket.tail) : (k, pr) ∈ tracePairs grouped := by
  unfold tracePairs
  rw [List.mem_flatten]
  exact ⟨(bucket.zip bucket.tail).map (fun pr => (k, pr)),
    List.mem_map.mpr ⟨(k, bucket), h, rfl⟩, List.mem_map.mpr ⟨pr, hpr, rfl⟩⟩

theorem touchesOf_fst_sub (grouped : List (String × List Event)) {x : String}
    (h : x ∈ (touchesOf grouped).map Prod.fst) : x ∈ grouped.map Prod.fst := by
  obtain ⟨te, hte, rfl⟩ := List.mem_map.mp h
  unfold touchesOf at hte
  obtain ⟨b, hb, hteb⟩ := List.mem_flatten.mp hte
  obtain ⟨kv, hkv, rfl⟩ := List.mem_map.mp hb
  obtain ⟨e, _, rfl⟩ := List.mem_map.mp hteb
  exact List.mem_map.mpr ⟨kv, hkv, rfl⟩

theorem pairsOf_fst_sub (grouped : List (String × List Event)) {x : String}
    (h : x ∈ (pairsOf grouped).map Prod.fst) : x ∈ grouped.map Prod.fst := by
  obtain ⟨pr, hpr, rfl⟩ := List.mem_map.mp h
  unfold pairsOf at hpr
  obtain ⟨b, hb, hprb⟩ := List.mem_flatten.mp hpr
  obtain ⟨kv, hkv, rfl⟩ := List.mem_map.mp hb
  obtain ⟨pr', _, rfl⟩ := List.mem_map.mp hprb
  exact List.mem_map.mpr ⟨kv, hkv, rfl⟩

/-- Every node touch `(trace key, event)` is reflected in the built graph:
a node row with that event's node id exists and carries the trace key in
its `trace_ids` — regardless of the event's own `trace_id` field. -/
theorem build_node_touch_spec (grouped : List (String × List Event)) :
    ∀ te ∈ touchesOf grouped,
      ∃ nr ∈ (buildFromGrouped grouped).nodes, nr.id = te.2.node ∧ te.1 ∈ nr.trace_ids := by
  intro te hte
  have hkey : te.2.node ∈ (buildStateOf grouped).nodes.map Prod.fst := by
    rw [nodes_keys_mem]
    exact List.mem_map.mpr ⟨te, hte, rfl⟩
  obtain ⟨v, hv⟩ := exists_value_of_key_mem hkey
  obtain ⟨hid, _, _, _, _, htids⟩ := node_agg_spec grouped hv
  refine ⟨mkNodeRow v, ?_, hid, ?_⟩
  · rw [buildFromGrouped_nodes, List.mem_insertionSort]
    exact List.mem_map.mpr ⟨(te.2.node, v), hv, rfl⟩
  · show te.1 ∈ List.insertionSort strLe v.trace_ids
    rw [List.mem_insertionSort, htids]
    apply List.mem_map.mpr
    exact ⟨te, List.mem_filter.mpr ⟨hte, by simp⟩, rfl⟩

/-- Every adjacent same-trace pair is reflected in the built graph: an
edge row with its node signature exists and carries the trace key. -/
theorem build_pair_edge_spec (grouped : List (String × List Event)) :
    ∀ tp ∈ tracePairs grouped,
      ∃ er ∈ (buildFromGrouped grouped).edges,
        er.source = tp.2.1.node ∧ er.target = tp.2.2.node ∧ tp.1 ∈ er.trace_ids := by
  intro tp htp
  have hpr : ((tp.2.1.node, tp.2.2.node) : String × String) ∈
      (pairsOf grouped).map (fun pr => pr.2.1) := by
    rw [pairsOf_eq, List.map_map]
    exact List.mem_map.mpr ⟨tp, htp, rfl⟩
  rw [← edges_keys_mem] at hpr
  obtain ⟨v, hv⟩ := exists_value_of_key_mem hpr
  obtain ⟨hs, ht, _, _, htids⟩ := edge_agg_spec grouped hv
  refine ⟨mkEdgeRow v, ?_, hs, ht, ?_⟩
  · rw [buildFromGrouped_edges, List.mem_insertionSort]
    exact List.mem_map.mpr ⟨((tp.2.1.node, tp.2.2.node), v), hv, rfl⟩
  · show tp.1 ∈ List.insertionSort strLe v.trace_ids
    rw [List.mem_insertionSort, htids]
    apply List.mem_map.mpr
    refine ⟨(tp.1, ((tp.2.1.node, tp.2.2.node), tp.2.2)), ?_, rfl⟩
    apply List.mem_filter.mpr
    refine ⟨?_, by simp⟩
    rw [pairsOf_eq]
    exact List.mem_map.mpr ⟨tp, htp, rfl⟩

theorem build_node_tids_sub (grouped : List (String × List Event)) :
    ∀ nr ∈ (buildFromGrouped grouped).nodes, ∀ tid ∈ nr.trace_ids,
      tid ∈ grouped.map Prod.fst := by
  intro nr hnr tid htid
  rw [buildFromGrouped_nodes, List.mem_insertionSort] at hnr
  obtain ⟨kv, hkv, rfl⟩ := List.mem_map.mp hnr
  obtain ⟨_, _, _, _, _, htids⟩ := node_agg_spec grouped hkv
  have : tid ∈ List.insertionSort strLe kv.2.trace_ids := htid
  rw [List.mem_insertionSort, htids] at this
  apply touchesOf_fst_sub
  obtain ⟨te, hte, rfl⟩ := List.mem_map.mp this
  exact List.mem_map.mpr ⟨te, (List.mem_filter.mp hte).1, rfl⟩

theorem build_edge_tids_sub (grouped : List (String × List Event)) :
    ∀ er ∈ (buildFromGrouped grouped).edges, ∀ tid ∈ er.trace_ids,
      tid ∈ grouped.map Prod.fst := by
  intro er her tid htid
  rw [buildFromGrouped_edges, List.mem_insertionSort] at her
  obtain ⟨kv, hkv, rfl⟩ := List.mem_map.mp her
  obtain ⟨_, _, _, _, htids⟩ := edge_agg_spec grouped hkv
  have : tid ∈ List.insertionSort strLe kv.2.trace_ids := htid
  rw [List.mem_insertionSort, htids] at this
  apply pairsOf_fst_sub
  obtain ⟨pr, hpr, rfl⟩ := List.mem_map.mp this
  exact List.mem_map.mpr ⟨pr, (List.mem_filter.mp hpr).1, rfl⟩

theorem build_trace_exists (grouped : List (String × List Event)) :
    ∀ kv ∈ grouped, ∃ tr ∈ (buildFromGrouped grouped).traces,
      tr.trace_id = kv.1 ∧ tr.events = kv.2 := by
  intro kv hkv
  refine ⟨mkTraceRow kv.1 kv.2, ?_, rfl, rfl⟩
  rw [buildFromGrouped_traces, List.mem_insertionSort]
  exact List.mem_map.mpr ⟨kv, hkv, rfl⟩

theorem build_traces_count_spec (grouped : List (String × List Event)) :
    ∀ tr ∈ (buildFromGrouped grouped).traces, tr.event_count = tr.events.length := by
  intro tr htr
  rw [buildFromGrouped_traces, List.mem_insertionSort] at htr
  obtain ⟨kv, _, rfl⟩ := List.mem_map.mp htr
  rfl

/-! ## Characterizing `parse_jsonl` -/

/-- A line is malformed: non-blank and either invalid JSON or a JSON
value that is not an object. -/
def lineIsBad (env : PyEnv) (line : String) : Bool :=
  if pyStrip line = "" then false
  else
    match env.jsonLoads (pyStrip line) with
    | some (.vDict _) => false
    | _ => true

/-- The normalized event a well-formed line contributes, if any. -/
def lineGood (env : PyEnv) (p : LogFlowParser) (line : String) : Option Event :=
  if pyStrip line = "" then none
  else
    match env.jsonLoads (pyStrip line) with
    | some (.vDict d) => some (normalizeRaw env p d)
    | _ => none

/-- The events of exactly the well-formed lines, in order. -/
def jsonlGood (env : PyEnv) (p : LogFlowParser) (ls : List String) : List Event :=
  ls.filterMap (lineGood env p)

/-- The first malformed line, reported with its line number (the counter
starts at `n`). -/
def jsonlFirstBad (env : PyEnv) : Nat → List String → Option JsonlError
  | _, [] => none
  | n, line :: rest =>
    if pyStrip line = "" then jsonlFirstBad env (n + 1) rest
    else
      match env.jsonLoads (pyStrip line) with
      | none => some (.invalidJson n)
      | some (.vDict _) => jsonlFirstBad env (n + 1) rest
      | some _ => some (.notObject n)

def JsonlError.lineNo : JsonlError → Nat
  | .invalidJson n => n
  | .notObject n => n

theorem parseLoop_lenient (env : PyEnv) (p : LogFlowParser) (ls : List String) :
    ∀ n, parseLoop env p false n ls = .ok (jsonlGood env p ls) := by
  induction ls with
  | nil => intro n; rfl
  | cons line rest ih =>
    intro n
    by_cases hb : pyStrip line = ""
    · simp [parseLoop, hb, ih, jsonlGood, lineGood, List.filterMap_cons]
    · cases hj : env.jsonLoads (pyStrip line) with
      | none => simp [parseLoop, hb, hj, ih, jsonlGood, lineGood, List.filterMap_cons, Except.map]
      | some v =>
        cases v <;> simp [parseLoop, hb, hj, ih, jsonlGood, lineGood, List.filterMap_cons, Except.map]

theorem parseLoop_strict (env : PyEnv) (p : LogFlowParser) (ls : List String) :
    ∀ n, parseLoop env p true n ls =
      match jsonlFirstBad env n ls with
      | none => .ok (jsonlGood env p ls)
      | some e => .error e := by
  induction ls with
  | nil => intro n; rfl
  | cons line rest ih =>
    intro n
    by_cases hb : pyStrip line = ""
    · cases hf : jsonlFirstBad env (n + 1) rest <;>
        simp [parseLoop, jsonlFirstBad, hb, hf, ih, jsonlGood, lineGood, List.filterMap_cons]
    · cases hj : env.jsonLoads (pyStrip line) with
      | none => simp [parseLoop, jsonlFirstBad, hb, hj]
      | some v =>
        cases v with
        | vDict d =>
          cases hf : jsonlFirstBad env (n + 1) rest <;>
            simp [parseLoop, jsonlFirstBad, hb, hj, hf, ih, jsonlGood, lineGood,
              List.filterMap_cons, Except.map]
        | vNone => simp [parseLoop, jsonlFirstBad, hb, hj]
        | vNum q => simp [parseLoop, jsonlFirstBad, hb, hj]
        | vStr s => simp [parseLoop, jsonlFirstBad, hb, hj]

theorem jsonlFirstBad_spec (env : PyEnv) (ls : List String) :
    ∀ n e, jsonlFirstBad env n ls = some e →
      ∃ pre line post, ls = pre ++ line :: post ∧
        (∀ l ∈ pre, lineIsBad env l = false) ∧ lineIsBad env line = true ∧
        e.lineNo = n + pre.length := by
  induction ls with
  | nil => intro n e h; simp [jsonlFirstBad] at h
  | cons line rest ih =>
    intro n e h
    rw [jsonlFirstBad] at h
    by_cases hb : pyStrip line = ""
    · rw [if_pos hb] at h
      obtain ⟨pre, l₀, post, hsplit, hpre, hbad, hno⟩ := ih (n + 1) e h
      refine ⟨line :: pre, l₀, post, by simp [hsplit], ?_, hbad, ?_⟩
      · intro l hl
        rcases List.mem_cons.mp hl with rfl | hl
        · unfold lineIsBad
          rw [if_pos hb]
        · exact hpre l hl
      · rw [List.length_cons, hno]
        omega
    · rw [if_neg hb] at h
      cases hj : env.jsonLoads (pyStrip line) with
      | none =>
        rw [hj] at h
        injection h with h
        subst h
        exact ⟨[], line, rest, rfl, by simp,
          by unfold lineIsBad; rw [if_neg hb, hj], by simp [JsonlError.lineNo]⟩
      | some v =>
        cases v with
        | vDict d =>
          rw [hj] at h
          obtain ⟨pre, l₀, post, hsplit, hpre, hbad, hno⟩ := ih (n + 1) e h
          refine ⟨line :: pre, l₀, post, by simp [hsplit], ?_, hbad, ?_⟩
          · intro l hl
            rcases List.mem_cons.mp hl with rfl | hl
            · unfold lineIsBad
              rw [if_neg hb, hj]
            · exact hpre l hl
          · rw [List.length_cons, hno]
            omega
        | vNone =>
          rw [hj] at h
          injection h with h
          subst h
          exact ⟨[], line, rest, rfl, by simp,
            by unfold lineIsBad; rw [if_neg hb, hj], by simp [JsonlError.lineNo]⟩
        | vNum q =>
          rw [hj] at h
          injection h with h
          subst h
          exact ⟨[], line, rest, rfl, by simp,
            by unfold lineIsBad; rw [if_neg hb, hj], by simp [JsonlError.lineNo]⟩
        | vStr s =>
          rw [hj] at h
          injection h with h
          subst h
          exact ⟨[], line, rest, rfl, by simp,
            by unfold lineIsBad; rw [if_neg hb, hj], by simp [JsonlError.lineNo]⟩

/-! ## The claims -/

/-- C2: for every input accepted by `build_flow_graph`, `stats.node_count`
equals the number of distinct node ids occurring among the (normalized,
grouped) events, and the per-node `calls` fields sum to
`stats.event_count`. -/
theorem C2_node_count_and_calls_sum (env : PyEnv) (p : LogFlowParser) (input : GraphInput) :
    (build_flow_graph env p input).stats.node_count =
      ((flattenGrouped (toGrouped env p input)).map (·.node)).dedup.length ∧
    ((build_flow_graph env p input).nodes.map (·.calls)).sum =
      (build_flow_graph env p input).stats.event_count :=
  ⟨build_node_count (toGrouped env p input), build_sum_calls (toGrouped env p input)⟩

/-- C3: every edge row counts exactly the chronologically adjacent
same-trace event pairs with its `(source, target)` node signature (one
occurrence per pair), its `error_count` counts exactly those pairs whose
second (target) event carries a non-empty exception marker — the source
event's exception status never enters — and an edge exists exactly when
such a pair exists, so the first event of a trace contributes no edge and
no edge spans two traces. -/
theorem C3_edges_from_adjacent_pairs (env : PyEnv) (p : LogFlowParser) (input : GraphInput) :
    (∀ er ∈ (build_flow_graph env p input).edges,
      er.count = ((tracePairs (toGrouped env p input)).filter
          (fun tp => tp.2.1.node = er.source ∧ tp.2.2.node = er.target)).length ∧
        er.error_count = ((tracePairs (toGrouped env p input)).filter
          (fun tp => (tp.2.1.node = er.source ∧ tp.2.2.node = er.target) ∧
            tp.2.2.exception ≠ "")).length) ∧
    (∀ s t : String,
      (∃ er ∈ (build_flow_graph env p input).edges, er.source = s ∧ er.target = t) ↔
        ∃ tp ∈ tracePairs (toGrouped env p input), tp.2.1.node = s ∧ tp.2.2.node = t) :=
  ⟨build_edges_spec (toGrouped env p input),
    build_edges_exists (toGrouped env p input)⟩

/-- C7: `group_by_trace_id` is idempotent and stable — flattening its
result (buckets in presentation order, each bucket in its event order)
and re-grouping the flattened events reproduces the identical mapping,
with buckets sorted by `(size desc, trace_id asc)` and each bucket's
events sorted by `(sort_key, function_name, module)`.  (The configured
missing-trace sentinel must be strip-stable and non-empty, as the
default `"no-trace"` is.) -/
theorem C7_group_by_trace_id_idempotent (env : PyEnv) (p : LogFlowParser)
    (hp : pyStrip p.missing_trace_id = p.missing_trace_id)
    (hp2 : p.missing_trace_id ≠ "") (entries : List EntryLike) :
    group_by_trace_id env p
        ((flattenGrouped (group_by_trace_id env p entries)).map
          (fun ev => EntryLike.map (eventToDict ev)))
      = group_by_trace_id env p entries ∧
    (∀ kb ∈ group_by_trace_id env p entries, List.Sorted eventKeyLe kb.2) ∧
    List.Sorted bucketLe (group_by_trace_id env p entries) :=
  ⟨group_idem_core env p hp hp2 entries,
    fun _ hkb => group_bucket_sorted env p entries hkb,
    group_sorted env p entries⟩

/-- C9 (amended): every node row has `calls ≥ 1`, and both duration
fields are 3-decimal roundings of the same raw accumulated total —
`avg_duration_ms` is the rounding of (raw total / calls), which can
differ from `total_duration_ms / calls` because the two fields are
rounded independently. -/
theorem C9_avg_duration_rounding (env : PyEnv) (p : LogFlowParser) (input : GraphInput) :
    ∀ nr ∈ (build_flow_graph env p input).nodes,
      1 ≤ nr.calls ∧ ∃ q : Rat, nr.total_duration_ms = pyRound3 q ∧
        nr.avg_duration_ms = pyRound3 (q / (nr.calls : Rat)) :=
  build_nodes_avg_spec (toGrouped env p input)

/-- C10: when `build_flow_graph` receives an already-grouped mapping,
every event is attributed to its group key: a trace summary exists per
key, each entry's node row carries the group key in `trace_ids`, every
chronologically adjacent pair of a bucket yields an edge row carrying the
group key in `trace_ids`, and node and edge `trace_ids` only ever contain
group keys — all regardless of the events' own `trace_id` fields. -/
theorem C10_grouped_input_key_attribution (env : PyEnv) (p : LogFlowParser)
    (m : List (String × List EntryLike)) :
    (∀ kb ∈ m, ∃ tr ∈ (build_flow_graph env p (.grouped m)).traces, tr.trace_id = kb.1) ∧
    (∀ kb ∈ m, ∀ ent ∈ kb.2,
      ∃ nr ∈ (build_flow_graph env p (.grouped m)).nodes,
        nr.id = (normalize_entry env p ent).node ∧ kb.1 ∈ nr.trace_ids) ∧
    (∀ kb ∈ m,
      ∀ pr ∈ (List.insertionSort eventKeyLe (kb.2.map (normalize_entry env p))).zip
        (List.insertionSort eventKeyLe (kb.2.map (normalize_entry env p))).tail,
      ∃ er ∈ (build_flow_graph env p (.grouped m)).edges,
        er.source = pr.1.node ∧ er.target = pr.2.node ∧ kb.1 ∈ er.trace_ids) ∧
    (∀ nr ∈ (build_flow_graph env p (.grouped m)).nodes, ∀ tid ∈ nr.trace_ids,
      tid ∈ m.map Prod.fst) ∧
    (∀ er ∈ (build_flow_graph env p (.grouped m)).edges, ∀ tid ∈ er.trace_ids,
      tid ∈ m.map Prod.fst) := by
  have hkeys : (toGrouped env p (.grouped m)).map Prod.fst = m.map Prod.fst := by
    show (m.map _).map Prod.fst = m.map Prod.fst
    rw [List.map_map]
    rfl
  refine ⟨?_, ?_, ?_, ?_, ?_⟩
  · intro kb hkb
    have hmem : (kb.1, List.insertionSort eventKeyLe (kb.2.map (normalize_entry env p))) ∈
        toGrouped env p (.grouped m) := List.mem_map.mpr ⟨kb, hkb, rfl⟩
    obtain ⟨tr, htr, htid, _⟩ := build_trace_exists (toGrouped env p (.grouped m)) _ hmem
    exact ⟨tr, htr, htid⟩
  · intro kb hkb ent hent
    have hmem : (kb.1, List.insertionSort eventKeyLe (kb.2.map (normalize_entry env p))) ∈
        toGrouped env p (.grouped m) := List.mem_map.mpr ⟨kb, hkb, rfl⟩
    have hev : normalize_entry env p ent ∈
        List.insertionSort eventKeyLe (kb.2.map (normalize_entry env p)) := by
      rw [List.mem_insertionSort]
      exact List.mem_map.mpr ⟨ent, hent, rfl⟩
    have htouch := touchesOf_mem_of (toGrouped env p (.grouped m)) hmem hev
    exact build_node_touch_spec (toGrouped env p (.grouped m)) _ htouch
  · intro kb hkb pr hpr
    have hmem : (kb.1, List.insertionSort eventKeyLe (kb.2.map (normalize_entry env p))) ∈
        toGrouped env p (.grouped m) := List.mem_map.mpr ⟨kb, hkb, rfl⟩
    have htp := tracePairs_mem_of (toGrouped env p (.grouped m)) hmem hpr
    exact build_pair_edge_spec (toGrouped env p (.grouped m)) _ htp
  · intro nr hnr tid htid
    rw [← hkeys]
    exact build_node_tids_sub (toGrouped env p (.grouped m)) nr hnr tid htid
  · intro er her tid htid
    rw [← hkeys]
    exact build_edge_tids_sub (toGrouped env p (.grouped m)) er her tid htid

/-- A concrete environment for the scenario claims: three parsable
timestamps, two parsable JSONL lines, one existing file. -/
def demoEnv : PyEnv where
  fromiso := fun s =>
    if s = "T0" then some 0 else if s = "T1" then some 1
    else if s = "T2" then some 2 else none
  strFloat := fun _ => none
  jsonLoads := fun s =>
    if s = "o1" then some (.vDict [("function_name", .vStr "f1"), ("trace_id", .vStr "trace-1")])
    else if s = "o2" then some (.vDict [("function_name", .vStr "f2"), ("trace_id", .vStr "trace-1")])
    else none
  fs := fun q => if q = "logs.jsonl" then some "o1" else none

/-- Scenario A input: start(t=0), process(t=1), finish(t=2, boom). -/
def scenarioAEntries : List EntryLike :=
  [ .map [("function_name", .vStr "start"), ("timestamp", .vStr "T0"),
          ("trace_id", .vStr "trace-1")],
    .map [("function_name", .vStr "process"), ("timestamp", .vStr "T1"),
          ("trace_id", .vStr "trace-1")],
    .map [("function_name", .vStr "finish"), ("timestamp", .vStr "T2"),
          ("trace_id", .vStr "trace-1"),
          ("exception", .vStr "boom"), ("exception_type", .vStr "RuntimeError")] ]

/-- C1: on Scenario A — start(t=0), process(t=1), finish(t=2,
exception "boom"/"RuntimeError"), all on trace "trace-1" — the graph has
node_count 3, edge_count 2, error_count 1, the process→finish edge has
error_count 1 and the start→process edge has error_count 0. -/
theorem C1_scenarioA :
    (build_flow_graph demoEnv defaultParser (.entries scenarioAEntries)).stats.node_count = 3 ∧
    (build_flow_graph demoEnv defaultParser (.entries scenarioAEntries)).stats.edge_count = 2 ∧
    (build_flow_graph demoEnv defaultParser (.entries scenarioAEntries)).stats.error_count = 1 ∧
    (∃ er ∈ (build_flow_graph demoEnv defaultParser (.entries scenarioAEntries)).edges,
      er.source = "process" ∧ er.target = "finish" ∧ er.error_count = 1) ∧
    (∃ er ∈ (build_flow_graph demoEnv defaultParser (.entries scenarioAEntries)).edges,
      er.source = "start" ∧ er.target = "process" ∧ er.error_count = 0) := by
  with_unfolding_all decide

/-- Two events on one node with duration 0.0017 each: rounding makes
`avg_duration_ms` (0.002) differ from `total_duration_ms / calls`
(0.003 / 2 = 0.0015). -/
def c9Entries : List EntryLike :=
  [ .map [("function_name", .vStr "f"), ("duration_ms", .vNum (mkRat 17 10000))],
    .map [("function_name", .vStr "f"), ("duration_ms", .vNum (mkRat 17 10000))] ]

/-- C9 counterexample: a node row whose `avg_duration_ms` is not
`total_duration_ms / calls` — the two fields are rounded independently
from the raw total, so the claimed identity fails. -/
theorem C9_counterexample :
    ∃ nr ∈ (build_flow_graph demoEnv defaultParser (.entries c9Entries)).nodes,
      ¬ (nr.avg_duration_ms = nr.total_duration_ms / (nr.calls : Rat)) := by
  with_unfolding_all decide

/-- The node row the C9 input produces. -/
def c9Row : NodeRow :=
  { id := "f", module := "", function_name := "f", calls := 2, errors := 0,
    total_duration_ms := mkRat 3 1000, avg_duration_ms := mkRat 1 500,
    trace_ids := ["no-trace"] }

/-- C4: with `strict=False`, `parse_jsonl` returns the normalized events
of exactly the non-blank, valid-JSON-object lines; with `strict=True` it
fails at the first malformed line, whose error names that line's 1-based
number; on the 3-line scenario (2 objects + 1 junk line) the lenient run
yields exactly 2 events and the strict run fails naming line 3. -/
theorem C4_parse_jsonl_spec (env : PyEnv) (p : LogFlowParser) (ls : List String) :
    parse_jsonl env p false (.lines ls) = .ok (jsonlGood env p ls) ∧
    (parse_jsonl env p true (.lines ls) =
      match jsonlFirstBad env 1 ls with
      | none => .ok (jsonlGood env p ls)
      | some e => .error e) ∧
    (∀ e, jsonlFirstBad env 1 ls = some e →
      ∃ pre line post, ls = pre ++ line :: post ∧
        (∀ l ∈ pre, lineIsBad env l = false) ∧ lineIsBad env line = true ∧
        e.lineNo = 1 + pre.length) ∧
    (parse_jsonl demoEnv defaultParser false (.lines ["o1", "o2", "junk"])).map
      (fun es => es.length) = .ok 2 ∧
    parse_jsonl demoEnv defaultParser true (.lines ["o1", "o2", "junk"]) =
      .error (.invalidJson 3) :=
  ⟨parseLoop_lenient env p ls 1, parseLoop_strict env p ls 1,
    fun e h => jsonlFirstBad_spec env ls 1 e h,
    by with_unfolding_all rfl, by with_unfolding_all rfl⟩

/-- C5: `normalize_entry` fails exactly on a value that is neither a
typed record nor a mapping; on every mapping it returns an event without
failing, the resolved timestamp string is kept verbatim, `sort_key` is
0.0 whenever that string is empty or not ISO-parsable, and `duration_ms`
is 0.0 whenever the duration value is missing (defaulted to 0) or not
numerically coercible. -/
theorem C5_normalize_entry_errors (env : PyEnv) (p : LogFlowParser) :
    (∀ inp : EntryAny, (∃ e, normalizeAny env p inp = .ok e) ↔ ∃ x, inp = .entry x) ∧
    (∀ d : PyDict, normalizeAny env p (.entry (.map d)) = .ok (normalizeRaw env p d)) ∧
    (∀ d : PyDict, (normalizeRaw env p d).timestamp =
      pyStr (pyOr (rawGet d "timestamp") (pyOr (rawGet d "ts") (.vStr "")))) ∧
    (∀ d : PyDict,
      ((normalizeRaw env p d).timestamp = "" ∨
        env.fromiso ((normalizeRaw env p d).timestamp.replace "Z" "+00:00") = none) →
      (normalizeRaw env p d).sort_key = 0) ∧
    (∀ d : PyDict,
      (pyFloat env ((dlookup d "duration_ms").getD ((dlookup d "ms").getD (.vNum 0))) = none ∨
        (dlookup d "duration_ms").getD ((dlookup d "ms").getD (.vNum 0)) = .vNum 0) →
      (normalizeRaw env p d).duration_ms = 0) := by
  refine ⟨?_, fun d => rfl, fun d => rfl, ?_, ?_⟩
  · intro inp
    cases inp with
    | entry x => exact ⟨fun _ => ⟨x, rfl⟩, fun _ => ⟨normalize_entry env p x, rfl⟩⟩
    | other t =>
      constructor
      · rintro ⟨e, he⟩
        exact absurd he (by simp [normalizeAny])
      · rintro ⟨x, hx⟩
        cases hx
  · intro d h
    have hsk : (normalizeRaw env p d).sort_key =
        timestamp_sort_key env (normalizeRaw env p d).timestamp :=
      normalizeRaw_sort_key_eq env p d
    rw [hsk]
    unfold timestamp_sort_key
    rcases h with h | h
    · rw [if_pos h]
    · by_cases hts : (normalizeRaw env p d).timestamp = ""
      · rw [if_pos hts]
      · rw [if_neg hts, h]
        rfl
  · intro d h
    have hdur : (normalizeRaw env p d).duration_ms =
        safe_float env ((dlookup d "duration_ms").getD ((dlookup d "ms").getD (.vNum 0))) := rfl
    rw [hdur]
    rcases h with h | h
    · cases hv : (dlookup d "duration_ms").getD ((dlookup d "ms").getD (.vNum 0)) with
      | vNone => rfl
      | vNum q => rw [hv] at h; simp [pyFloat] at h
      | vStr s =>
        rw [hv] at h
        show (pyFloat env (.vStr s)).getD 0 = 0
        rw [show pyFloat env (.vStr s) = env.strFloat s from rfl, show env.strFloat s = none from h]
        rfl
      | vDict d' => rfl
    · rw [h]
      show (pyFloat env (.vNum 0)).getD 0 = 0
      rfl

/-- C6: a bare-string ingestion source is read as a file exactly when it
contains no newline and a file exists at that path; with a newline, or
with no such file, the string itself is split into lines. -/
theorem C6_read_lines_string (env : PyEnv) (s : String) :
    (s.contains '\n' = false → ∀ content, env.fs s = some content →
      read_lines env (.str s) = pySplitlines content) ∧
    (s.contains '\n' = true → read_lines env (.str s) = pySplitlines s) ∧
    (env.fs s = none → read_lines env (.str s) = pySplitlines s) := by
  refine ⟨?_, ?_, ?_⟩
  · intro hnl content hfs
    show (if ¬ s.contains '\n' ∧ (env.fs s).isSome then
      pySplitlines ((env.fs s).getD "") else pySplitlines s) = _
    rw [if_pos ⟨by simp [hnl], by simp [hfs]⟩, hfs]
    rfl
  · intro hnl
    show (if ¬ s.contains '\n' ∧ (env.fs s).isSome then
      pySplitlines ((env.fs s).getD "") else pySplitlines s) = _
    rw [if_neg (by simp [hnl])]
  · intro hfs
    show (if ¬ s.contains '\n' ∧ (env.fs s).isSome then
      pySplitlines ((env.fs s).getD "") else pySplitlines s) = _
    rw [if_neg (by simp [hfs])]

theorem elide_segment_eq {α : Type} (l : List α) (m : Nat) (word : String) :
    (if m < l.length then ["- ... " ++ toString (l.length - m) ++ word] else []) =
      (if (l.take m).length < l.length then
        ["- ... " ++ toString (l.length - (l.take m).length) ++ word] else []) := by
  rw [List.length_take]
  by_cases h : m < l.length
  · rw [Nat.min_eq_left (Nat.le_of_lt h)]
  · have h2 : ¬ (min m l.length < l.length) := by omega
    rw [if_neg h, if_neg h2]

/-- C8: the compressed text prints each list up to its budget and every
elision line reports exactly the number of omitted items — total length
minus printed length — for nodes, edges, traces and per-trace events
alike; when a list fits its budget, no elision line for it appears.
(`event_count = events.length` holds for every graph `build_flow_graph`
produces, see `build_traces_count_spec`.) -/
theorem C8_compress_elision_exact (g : FlowGraph) (mn me mt mev : Nat)
    (hg : ∀ tr ∈ g.traces, tr.event_count = tr.events.length) :
    compress_for_llm g mn me mt mev =
      String.intercalate "\n" (compressLines g mn me mt mev) ∧
    compressLines g mn me mt mev =
      ["# nfo Log Flow Compression", "## Summary",
       "- traces: " ++ toString g.stats.trace_count,
       "- events: " ++ toString g.stats.event_count,
       "- nodes: " ++ toString g.stats.node_count,
       "- edges: " ++ toString g.stats.edge_count,
       "- errors: " ++ toString g.stats.error_count,
       "", "## Top Nodes"]
      ++ (g.nodes.take mn).map nodeLine
      ++ (if (g.nodes.take mn).length < g.nodes.length then
            ["- ... " ++ toString (g.nodes.length - (g.nodes.take mn).length) ++ " more nodes"]
          else [])
      ++ ["", "## Top Edges"]
      ++ (g.edges.take me).map edgeLine
      ++ (if (g.edges.take me).length < g.edges.length then
            ["- ... " ++ toString (g.edges.length - (g.edges.take me).length) ++ " more edges"]
          else [])
      ++ ["", "## Trace Timelines"]
      ++ ((g.traces.take mt).map (fun tr =>
            ("### trace_id=" ++ tr.trace_id ++ " (events=" ++ toString tr.events.length
              ++ ", errors=" ++ toString tr.error_count ++ ")")
            :: (tr.events.take mev).map eventLine
            ++ (if (tr.events.take mev).length < tr.events.length then
                  ["- ... " ++ toString (tr.events.length - (tr.events.take mev).length)
                    ++ " more events in this trace"]
                else []))).flatten
      ++ (if (g.traces.take mt).length < g.traces.length then
            ["- ... " ++ toString (g.traces.length - (g.traces.take mt).length) ++ " more traces"]
          else []) := by
  refine ⟨rfl, ?_⟩
  have htr : ∀ tr ∈ g.traces.take mt, traceBlock mev tr =
      ("### trace_id=" ++ tr.trace_id ++ " (events=" ++ toString tr.events.length
        ++ ", errors=" ++ toString tr.error_count ++ ")")
      :: (tr.events.take mev).map eventLine
      ++ (if (tr.events.take mev).length < tr.events.length then
            ["- ... " ++ toString (tr.events.length - (tr.events.take mev).length)
              ++ " more events in this trace"]
          else []) := by
    intro tr htrm
    have hg2 := hg tr (List.take_subset mt g.traces htrm)
    unfold traceBlock
    rw [hg2]
    exact congrArg (List.cons _)
      (congrArg (fun x => (tr.events.take mev).map eventLine ++ x)
        (elide_segment_eq tr.events mev " more events in this trace"))
  unfold compressLines
  rw [elide_segment_eq g.nodes mn " more nodes",
    elide_segment_eq g.edges me " more edges",
    elide_segment_eq g.traces mt " more traces",
    List.map_congr_left htr]

/-! ## Witnesses -/

/-- The start→process edge row Scenario A produces. -/
def c3Edge : EdgeRow :=
  { source := "start", target := "process", count := 1, error_count := 0,
    trace_ids := ["trace-1"] }

theorem C3_witness :
    c3Edge ∈ (build_flow_graph demoEnv defaultParser (.entries scenarioAEntries)).edges ∧
    (c3Edge.count = ((tracePairs (toGrouped demoEnv defaultParser (.entries scenarioAEntries))).filter
        (fun tp => tp.2.1.node = c3Edge.source ∧ tp.2.2.node = c3Edge.target)).length ∧
      c3Edge.error_count =
        ((tracePairs (toGrouped demoEnv defaultParser (.entries scenarioAEntries))).filter
          (fun tp => (tp.2.1.node = c3Edge.source ∧ tp.2.2.node = c3Edge.target) ∧
            tp.2.2.exception ≠ "")).length) :=
  ⟨by with_unfolding_all decide,
    (C3_edges_from_adjacent_pairs demoEnv defaultParser (.entries scenarioAEntries)).1
      c3Edge (by with_unfolding_all decide)⟩

theorem C7_witness :
    pyStrip defaultParser.missing_trace_id = defaultParser.missing_trace_id ∧
    defaultParser.missing_trace_id ≠ "" ∧
    (group_by_trace_id demoEnv defaultParser
        ((flattenGrouped (group_by_trace_id demoEnv defaultParser scenarioAEntries)).map
          (fun ev => EntryLike.map (eventToDict ev)))
      = group_by_trace_id demoEnv defaultParser scenarioAEntries ∧
    (∀ kb ∈ group_by_trace_id demoEnv defaultParser scenarioAEntries,
      List.Sorted eventKeyLe kb.2) ∧
    List.Sorted bucketLe (group_by_trace_id demoEnv defaultParser scenarioAEntries)) :=
  ⟨by with_unfolding_all decide, by decide,
    C7_group_by_trace_id_idempotent demoEnv defaultParser
      (by with_unfolding_all decide) (by decide) scenarioAEntries⟩

set_option maxRecDepth 8000 in
theorem C9_witness :
    c9Row ∈ (build_flow_graph demoEnv defaultParser (.entries c9Entries)).nodes ∧
    (1 ≤ c9Row.calls ∧ ∃ q : Rat, c9Row.total_duration_ms = pyRound3 q ∧
      c9Row.avg_duration_ms = pyRound3 (q / (c9Row.calls : Rat))) :=
  ⟨by with_unfolding_all decide,
    C9_avg_duration_rounding demoEnv defaultParser (.entries c9Entries) c9Row
      (by with_unfolding_all decide)⟩

/-- First entry of the grouped witness input: its trace id differs from
the group key. -/
def c10Ent1 : EntryLike :=
  .map [("function_name", .vStr "g"), ("trace_id", .vStr "other"),
        ("timestamp", .vStr "T0")]

/-- Second entry of the grouped witness input, chronologically after the
first, again with a trace id different from the group key. -/
def c10Ent2 : EntryLike :=
  .map [("function_name", .vStr "h"), ("trace_id", .vStr "other2"),
        ("timestamp", .vStr "T1")]

/-- A grouped input whose events carry trace ids different from their
group key. -/
def c10Input : List (String × List EntryLike) :=
  [("gk", [c10Ent1, c10Ent2])]

/-- The two normalized events of the witness bucket, in sort order. -/
def c10Ev1 : Event := normalize_entry demoEnv defaultParser c10Ent1

def c10Ev2 : Event := normalize_entry demoEnv defaultParser c10Ent2

theorem C10_witness :
    ("gk", [c10Ent1, c10Ent2]) ∈ c10Input ∧
    c10Ent1 ∈ [c10Ent1, c10Ent2] ∧
    (∃ nr ∈ (build_flow_graph demoEnv defaultParser (.grouped c10Input)).nodes,
      nr.id = (normalize_entry demoEnv defaultParser c10Ent1).node ∧
      "gk" ∈ nr.trace_ids) ∧
    (∃ er ∈ (build_flow_graph demoEnv defaultParser (.grouped c10Input)).edges,
      er.source = "g" ∧ er.target = "h" ∧ "gk" ∈ er.trace_ids) := by
  refine ⟨List.mem_cons_self _ _, List.mem_cons_self _ _, ?_, ?_⟩
  · exact (C10_grouped_input_key_attribution demoEnv defaultParser c10Input).2.1
      _ (List.mem_cons_self _ _) _ (List.mem_cons_self _ _)
  · have hb : List.insertionSort eventKeyLe
        ((("gk", [c10Ent1, c10Ent2]) : String × List EntryLike).2.map
          (normalize_entry demoEnv defaultParser)) = [c10Ev1, c10Ev2] := by
      with_unfolding_all rfl
    have hpr : (c10Ev1, c10Ev2) ∈
        (List.insertionSort eventKeyLe
          ((("gk", [c10Ent1, c10Ent2]) : String × List EntryLike).2.map
            (normalize_entry demoEnv defaultParser))).zip
        (List.insertionSort eventKeyLe
          ((("gk", [c10Ent1, c10Ent2]) : String × List EntryLike).2.map
            (normalize_entry demoEnv defaultParser))).tail := by
      rw [hb]
      exact List.mem_cons_self _ _
    obtain ⟨er, her, hs, ht, htid⟩ :=
      (C10_grouped_input_key_attribution demoEnv defaultParser c10Input).2.2.1
        ("gk", [c10Ent1, c10Ent2]) (List.mem_cons_self _ _) (c10Ev1, c10Ev2) hpr
    refine ⟨er, her, ?_, ?_, htid⟩
    · rw [hs]
      with_unfolding_all rfl
    · rw [ht]
      with_unfolding_all rfl

theorem C4_witness :
    jsonlFirstBad demoEnv 1 ["o1", "o2", "junk"] = some (.invalidJson 3) ∧
    ∃ pre line post, (["o1", "o2", "junk"] : List String) = pre ++ line :: post ∧
      (∀ l ∈ pre, lineIsBad demoEnv l = false) ∧ lineIsBad demoEnv line = true ∧
      (JsonlError.invalidJson 3).lineNo = 1 + pre.length :=
  ⟨by with_unfolding_all rfl,
    (C4_parse_jsonl_spec demoEnv defaultParser ["o1", "o2", "junk"]).2.2.1
      (.invalidJson 3) (by with_unfolding_all rfl)⟩

/-- A dirty mapping: unparsable timestamp, uncoercible duration. -/
def c5Dict : PyDict := [("timestamp", .vStr "garbage"), ("duration_ms", .vStr "x")]

theorem C5_witness :
    ((normalizeRaw demoEnv defaultParser c5Dict).timestamp = "" ∨
      demoEnv.fromiso ((normalizeRaw demoEnv defaultParser c5Dict).timestamp.replace
        "Z" "+00:00") = none) ∧
    (normalizeRaw demoEnv defaultParser c5Dict).sort_key = 0 ∧
    (pyFloat demoEnv ((dlookup c5Dict "duration_ms").getD
        ((dlookup c5Dict "ms").getD (.vNum 0))) = none ∨
      (dlookup c5Dict "duration_ms").getD ((dlookup c5Dict "ms").getD (.vNum 0)) = .vNum 0) ∧
    (normalizeRaw demoEnv defaultParser c5Dict).duration_ms = 0 :=
  ⟨Or.inr (by with_unfolding_all rfl),
    (C5_normalize_entry_errors demoEnv defaultParser).2.2.2.1 c5Dict
      (Or.inr (by with_unfolding_all rfl)),
    Or.inl (by with_unfolding_all rfl),
    (C5_normalize_entry_errors demoEnv defaultParser).2.2.2.2 c5Dict
      (Or.inl (by with_unfolding_all rfl))⟩

theorem C6_witness :
    ("logs.jsonl".contains '\n' = false) ∧ demoEnv.fs "logs.jsonl" = some "o1" ∧
    read_lines demoEnv (.str "logs.jsonl") = pySplitlines "o1" :=
  ⟨by with_unfolding_all rfl, by with_unfolding_all rfl,
    (C6_read_lines_string demoEnv "logs.jsonl").1 (by with_unfolding_all rfl)
      "o1" (by with_unfolding_all rfl)⟩

/-- A small graph with two nodes (budget 1 → one elided node). -/
def c8Graph : FlowGraph :=
  { stats := { trace_count := 1, event_count := 2, node_count := 2,
               edge_count := 0, error_count := 0 },
    nodes := [
      { id := "a", module := "", function_name := "a", calls := 1, errors := 0,
        total_duration_ms := 0, avg_duration_ms := 0, trace_ids := ["t"] },
      { id := "b", module := "", function_name := "b", calls := 1, errors := 0,
        total_duration_ms := 0, avg_duration_ms := 0, trace_ids := ["t"] }],
    edges := [],
    traces := [
      { trace_id := "t", event_count := 0, error_count := 0,
        start_timestamp := "", end_timestamp := "", events := [] }] }

theorem C8_witness :
    (∀ tr ∈ c8Graph.traces, tr.event_count = tr.events.length) ∧
    (compress_for_llm c8Graph 1 0 1 0 =
        String.intercalate "\n" (compressLines c8Graph 1 0 1 0) ∧
      compressLines c8Graph 1 0 1 0 =
        ["# nfo Log Flow Compression", "## Summary",
         "- traces: " ++ toString c8Graph.stats.trace_count,
         "- events: " ++ toString c8Graph.stats.event_count,
         "- nodes: " ++ toString c8Graph.stats.node_count,
         "- edges: " ++ toString c8Graph.stats.edge_count,
         "- errors: " ++ toString c8Graph.stats.error_count,
         "", "## Top Nodes"]
        ++ (c8Graph.nodes.take 1).map nodeLine
        ++ (if (c8Graph.nodes.take 1).length < c8Graph.nodes.length then
              ["- ... " ++ toString (c8Graph.nodes.length - (c8Graph.nodes.take 1).length)
                ++ " more nodes"]
            else [])
        ++ ["", "## Top Edges"]
        ++ (c8Graph.edges.take 0).map edgeLine
        ++ (if (c8Graph.edges.take 0).length < c8Graph.edges.length then
              ["- ... " ++ toString (c8Graph.edges.length - (c8Graph.edges.take 0).length)
                ++ " more edges"]
            else [])
        ++ ["", "## Trace Timelines"]
        ++ ((c8Graph.traces.take 1).map (fun tr =>
              ("### trace_id=" ++ tr.trace_id ++ " (events=" ++ toString tr.events.length
                ++ ", errors=" ++ toString tr.error_count ++ ")")
              :: (tr.events.take 0).map eventLine
              ++ (if (tr.events.take 0).length < tr.events.length then
                    ["- ... " ++ toString (tr.events.length - (tr.events.take 0).length)
                      ++ " more events in this trace"]
                  else []))).flatten
        ++ (if (c8Graph.traces.take 1).length < c8Graph.traces.length then
              ["- ... " ++ toString (c8Graph.traces.length - (c8Graph.traces.take 1).length)
                ++ " more traces"]
            else [])) :=
  ⟨by decide, C8_compress_elision_exact c8Graph 1 0 1 0 (by decide)⟩

end Nfo
